import Mathlib

/-! AI-Agent: selector normalisation, change fingerprint, heuristic planner, control loop,
candidate extraction

A shallow embedding of `internal/agent/tools.go`, `internal/agent/agent.go` and
`internal/dom/candidates.go`.

Go strings are modelled as `List Char` (well-formed UTF-8 text, one `Char` per
rune).  Where the Go code works on bytes (`len`, slicing, FNV-1a) the text is
first encoded with `utf8Bytes`.
-/

namespace AIAgent

/-! ## Library functions used by the source (`strings`, `regexp`) -/

/-- Go `unicode.IsSpace`: the Latin-1 spaces `\t \n \v \f \r`, space, U+0085, U+00A0,
and the code points with the Unicode White_Space property. -/
def isSpace (c : Char) : Bool :=
  let n := c.toNat
  (9 ≤ n && n ≤ 13) || n = 0x20 || n = 0x85 || n = 0xA0 || n = 0x1680 ||
  (0x2000 ≤ n && n ≤ 0x200A) || n = 0x2028 || n = 0x2029 || n = 0x202F ||
  n = 0x205F || n = 0x3000

/-- Go `strings.TrimSpace`: drop leading and trailing `unicode.IsSpace` runes. -/
def TrimSpace (s : List Char) : List Char :=
  ((s.dropWhile isSpace).reverse.dropWhile isSpace).reverse

/-- Go `strings.HasPrefix` combined with the remainder: `stripLit lit s` is the
rest of `s` after the literal `lit`, when `s` starts with it. -/
def stripLit : List Char → List Char → Option (List Char)
  | [], s => some s
  | _ :: _, [] => none
  | a :: lit, c :: s => if a = c then stripLit lit s else none

/-- Go `strings.TrimPrefix`. -/
def TrimPrefix (s lit : List Char) : List Char :=
  match stripLit lit s with
  | some r => r
  | none => s

/-- Go `strings.Contains`: `sub` occurs in `s`, that is, some suffix of `s` (the empty
one included) starts with `sub`. -/
def Contains : List Char → List Char → Bool
  | [], sub => (stripLit sub []).isSome
  | c :: s, sub => (stripLit sub (c :: s)).isSome || Contains s sub

/-- The Perl class `\s` of Go `regexp`: `[\t\n\f\r ]` (ASCII only, no `\v`). -/
def isReSpace (c : Char) : Bool :=
  c = '\t' || c = '\n' || c = Char.ofNat 12 || c = '\r' || c = ' '

/-- The Perl class `\d` of Go `regexp`: `[0-9]`. -/
def isReDigit (c : Char) : Bool :=
  48 ≤ c.toNat && c.toNat ≤ 57

/-- Left-to-right replacement of all non-overlapping leftmost matches
(`regexp.ReplaceAllString`, `strings.ReplaceAll`).  `m s` tries to match at the
start of `s` and answers the replacement text and the number of runes consumed
(at least one).  The first argument counts the runes of the current match that
are still to be skipped. -/
def replaceScan (m : List Char → Option (List Char × Nat)) : Nat → List Char → List Char
  | _, [] => []
  | 0, c :: r =>
    match m (c :: r) with
    | some (out, n) => out ++ replaceScan m (n - 1) r
    | none => c :: replaceScan m 0 r
  | k + 1, _ :: r => replaceScan m k r

/-- Left-to-right collection of the capture group of all non-overlapping
leftmost matches (`regexp.FindAllStringSubmatch(s, -1)`, group 1 of each match). -/
def findScan (m : List Char → Option (List Char × Nat)) : Nat → List Char → List (List Char)
  | _, [] => []
  | 0, c :: r =>
    match m (c :: r) with
    | some (cap, n) => cap :: findScan m (n - 1) r
    | none => findScan m 0 r
  | k + 1, _ :: r => findScan m k r

/-- Go `strings.ReplaceAll(s, old, new)` for non-empty `old`. -/
def ReplaceAll (s old new : List Char) : List Char :=
  replaceScan (fun t => (stripLit old t).map fun _ => (new, old.length)) 0 s

/-! ## `tools.go`: the four regular expressions -/

/-- The lazy group `(.*?)` followed by `"`: the runes before the first `"`,
provided no newline comes first (`.` does not match `\n`). -/
def untilQuote : List Char → Option (List Char)
  | [] => none
  | c :: r =>
    if c = '"' then some []
    else if c = '\n' then none
    else (untilQuote r).map (c :: ·)

/-- A match of `reSelQuoted = sel\s*=\s*"(.*?)"` at the start of `s`: group 1 and
the length of the match. -/
def matchSelQuoted (s : List Char) : Option (List Char × Nat) :=
  (stripLit "sel".toList s).bind fun r1 =>
  (stripLit "=".toList (r1.dropWhile isReSpace)).bind fun r2 =>
  (stripLit "\"".toList (r2.dropWhile isReSpace)).bind fun r3 =>
  (untilQuote r3).map fun cap => (cap, s.length - r3.length + cap.length + 1)

/-- A match of `reBackslashQ = \\+"` at the start of `s`, replaced by `"`: a
non-empty run of backslashes followed by a double quote. -/
def matchBackslashQ (s : List Char) : Option (List Char × Nat) :=
  (stripLit "\\".toList s).bind fun r =>
  (stripLit "\"".toList (r.dropWhile (· = '\\'))).map fun r2 =>
    ("\"".toList, s.length - r2.length)

/-- The negated class `[^\]]` (it also matches newlines). -/
def isNotClose (c : Char) : Bool :=
  !(c == ']')

/-- The tail `\s+i` of `reAttrCaseI` against a run of `[^\]]` runes that the greedy
`[^\]]+` has to share with it: the run must end in one `\s` rune and `i` with at
least one rune before them; the answer is what is left to `[^\]]+`. -/
def caseISuffix (run : List Char) : Option (List Char) :=
  match run.reverse with
  | i :: w :: a :: pre => if i = 'i' && isReSpace w then some (a :: pre).reverse else none
  | _ => none

/-- A match of `reAttrCaseI = (\[[^\]]+)\s+i\]` at the start of `s`, replaced by
`$1]`.  After `[` the class `[^\]]` can only run up to the first `]`, which has to
be the closing `\]` of the pattern, so the run before it is split by
`caseISuffix`; group 1 is `[` with the part left to `[^\]]+`. -/
def matchAttrCaseI (s : List Char) : Option (List Char × Nat) :=
  (stripLit "[".toList s).bind fun r =>
  (stripLit "]".toList (r.dropWhile isNotClose)).bind fun _ =>
  (caseISuffix (r.takeWhile isNotClose)).map fun g =>
    ('[' :: g ++ "]".toList, (r.takeWhile isNotClose).length + 2)

/-- The regular expression `reNumID = ^#\d+$` as a predicate (`MatchString`). -/
def reNumID (s : List Char) : Bool :=
  match s with
  | c :: d :: ds => c = '#' && (d :: ds).all isReDigit
  | _ => false

/-- Source `normalizeSelector` (tools.go). -/
def normalizeSelector (s0 : List Char) : List Char :=
  let s := TrimSpace s0
  if s = [] then s
  else
    let s := match (findScan matchSelQuoted 0 s).getLast? with
      | some cap => cap
      | none => s
    let s := ReplaceAll s "\\\"".toList "\"".toList
    let s := replaceScan matchBackslashQ 0 s
    let s := replaceScan matchAttrCaseI 0 s
    let s := if reNumID s then "[id=\"".toList ++ TrimPrefix s "#".toList ++ "\"]".toList else s
    TrimSpace s

/-- A text that offers the passes of `normalizeSelector` nothing to repair: it has no
`sel="…"` fragment and no `\"`, the pass for the case modifier leaves it as it is,
and it is not `#` followed by digits. -/
def settled (t : List Char) : Bool :=
  (findScan matchSelQuoted 0 t).isEmpty && !Contains t "\\\"".toList &&
    decide (replaceScan matchAttrCaseI 0 t = t) && !reNumID t

/-! ## `agent.go`: change fingerprint -/

/-- The UTF-8 encoding of one rune, as byte values. -/
def utf8Bytes (c : Char) : List Nat :=
  let n := c.toNat
  if n < 0x80 then [n]
  else if n < 0x800 then [0xC0 + n / 64, 0x80 + n % 64]
  else if n < 0x10000 then [0xE0 + n / 4096, 0x80 + n / 64 % 64, 0x80 + n % 64]
  else [0xF0 + n / 262144, 0x80 + n / 4096 % 64, 0x80 + n / 64 % 64, 0x80 + n % 64]

/-- The bytes of a Go string. -/
def toBytes : List Char → List Nat
  | [] => []
  | c :: s => utf8Bytes c ++ toBytes s

/-- Source `fnv32`: 32-bit FNV-1a (`hash/fnv.New32a`) over the bytes, offset basis
2166136261, prime 16777619, arithmetic modulo `2^32`. -/
def fnv32 (bs : List Nat) : Nat :=
  bs.foldl (fun h b => (Nat.xor h b * 16777619) % 2 ^ 32) 2166136261

/-- One lower-case hexadecimal digit. -/
def hexDigit (d : Nat) : Char :=
  if d < 10 then Char.ofNat (48 + d) else Char.ofNat (87 + d)

/-- The verb `%08x` of `fmt.Sprintf` on a `uint32`: eight hexadecimal digits. -/
def hex8 (n : Nat) : List Char :=
  [hexDigit (n / 16 ^ 7 % 16), hexDigit (n / 16 ^ 6 % 16), hexDigit (n / 16 ^ 5 % 16),
   hexDigit (n / 16 ^ 4 % 16), hexDigit (n / 16 ^ 3 % 16), hexDigit (n / 16 ^ 2 % 16),
   hexDigit (n / 16 % 16), hexDigit (n % 16)]

/-- The decimal digits of `n`, least significant first; the first argument bounds
the number of digits and `n + 1` is always enough. -/
def decimalRev : Nat → Nat → List Char
  | 0, _ => []
  | fuel + 1, n =>
    Char.ofNat (48 + n % 10) :: (if n / 10 = 0 then [] else decimalRev fuel (n / 10))

/-- The verb `%d` of `fmt.Sprintf` on a non-negative `int`. -/
def decimal (n : Nat) : List Char :=
  (decimalRev (n + 1) n).reverse

/-- The number written by a little-endian digit text (inverse of `decimalRev`). -/
def valRev : List Char → Nat
  | [] => 0
  | c :: r => (c.toNat - 48) + 10 * valRev r

/-- The value of a hexadecimal digit (inverse of `hexDigit`). -/
def hexVal (c : Char) : Nat :=
  if c.toNat < 58 then c.toNat - 48 else c.toNat - 87

/-- The text that `hashSnap` digests: trimmed, then cut to its first 512 bytes. -/
def snapBytes (s : List Char) : List Nat :=
  (toBytes (TrimSpace s)).take 512

/-- Source `hashSnap` (agent.go): `fmt.Sprintf("%d|%08x", len(s), fnv32(s))` on the
trimmed text cut to 512 bytes. -/
def hashSnap (s : List Char) : List Char :=
  decimal (snapBytes s).length ++ '|' :: hex8 (fnv32 (snapBytes s))

/-! ## Data model -/

/-- Source `dom.Candidate` (candidates.go). -/
structure Candidate where
  Selector : List Char
  Tag : List Char
  Role : List Char
  Text : List Char
  Desc : List Char
  BBox : List Char
  Href : List Char
  Selected : Bool
  Region : List Char
  deriving DecidableEq

/-- Source `Observation` (agent.go). -/
structure Observation where
  Title : List Char
  URL : List Char
  Snapshot : List Char
  Candidates : List Candidate
  deriving DecidableEq

/-- A value of Go type `any` as it occurs in tool arguments: the dynamic types the
dispatcher tells apart by type assertion.  A `float64` is given by the rational it
denotes. -/
inductive ArgVal where
  | str (s : List Char)
  | int (n : Int)
  | float (q : Rat)
  | bool (b : Bool)
  | other
  deriving DecidableEq

/-- Source `llmAction` (agent.go); `Args` is the map `map[string]any` as an
association list. -/
structure llmAction where
  Tool : List Char
  Args : List (List Char × ArgVal)
  Comment : List Char
  deriving DecidableEq

/-- Source `memory.Memory` (memory.go). -/
structure Memory where
  lastAction : List Char
  lastURL : List Char
  lastTitle : List Char
  lastHash : List Char
  lastToolSel : List Char
  repeatCount : Int
  deriving DecidableEq

/-- Source `memory.New`: the zero value. -/
def Memory.New : Memory :=
  ⟨[], [], [], [], [], 0⟩

/-- Source `(*Memory).LastAction`. -/
def Memory.LastAction (m : Memory) : List Char :=
  m.lastAction

/-- Source `(*Memory).SetLastAction`. -/
def Memory.SetLastAction (m : Memory) (s : List Char) : Memory :=
  { m with lastAction := s }

/-! ## `agent.go`: the heuristic planner

`strings.ToLower` maps `unicode.ToLower` over the runes.  The Unicode case table
is not part of the repository, so it is the parameter `lower` of everything that
lower-cases text. -/

/-- Go `strings.ToLower`, over the case table `lower`. -/
def ToLower (lower : Char → Char) (s : List Char) : List Char :=
  s.map lower

/-- Go `unicode.ToLower` on Basic Latin and on the Cyrillic letters U+0400 to U+044F;
other runes are left as they are.  It instantiates `lower` where the model is
evaluated on concrete texts written with those letters. -/
def unicodeToLower (c : Char) : Char :=
  let n := c.toNat
  if (65 ≤ n ∧ n ≤ 90) ∨ (0x410 ≤ n ∧ n ≤ 0x42F) then Char.ofNat (n + 32)
  else if 0x400 ≤ n ∧ n ≤ 0x40F then Char.ofNat (n + 80)
  else c

/-- Source `alreadyInInbox`. -/
def alreadyInInbox (lower : Char → Char) (obs : Observation) : Bool :=
  let s := ToLower lower (obs.Title ++ " ".toList ++ obs.URL ++ " ".toList ++ obs.Snapshot)
  Contains s "входящие".toList || Contains s "inbox".toList

/-- Source `hasAny`. -/
def hasAny (s : List Char) : List (List Char) → Bool
  | [] => false
  | sub :: subs => if Contains s sub then true else hasAny s subs

/-- Source `findByText`: the selector of the first candidate whose lower-cased
`Text + " " + Desc` contains one of the lower-cased texts. -/
def findByText (lower : Char → Char) : List Candidate → List (List Char) → List Char
  | [], _ => []
  | c :: cands, texts =>
    let t := ToLower lower (c.Text ++ " ".toList ++ c.Desc)
    if texts.any (fun q => Contains t (ToLower lower q)) then c.Selector
    else findByText lower cands texts

/-- Source `findByContains` (its variadic `fields` argument is unused). -/
def findByContains (lower : Char → Char) : List Candidate → List (List Char) → List Char
  | [], _ => []
  | c :: cands, qs =>
    let t := ToLower lower (c.Desc ++ " ".toList ++ c.Text)
    if qs.any (fun q => Contains t (ToLower lower q)) then c.Selector
    else findByContains lower cands qs

/-- Source `guessMailURL`. -/
def guessMailURL (task : List Char) : List Char :=
  if Contains task "яндекс".toList || Contains task "yandex".toList then
    "https://mail.yandex.ru/".toList
  else if Contains task "gmail".toList || Contains task "google".toList then
    "https://mail.google.com/mail/u/0/#inbox".toList
  else "https://mail.yandex.ru/".toList

/-- The condition of the login rule of `simpleHeuristicDecision`. -/
def loginWanted (lower : Char → Char) (lowTask : List Char) (obs : Observation) : Bool :=
  hasAny lowTask ["войти".toList, "логин".toList, "login".toList, "sign in".toList] ||
    Contains (ToLower lower obs.Title) "логин".toList

/-- The candidate search of the login rule of `simpleHeuristicDecision`. -/
def loginField (lower : Char → Char) (obs : Observation) : List Char :=
  findByContains lower obs.Candidates
    ["email".toList, "login".toList, "username".toList, "почта".toList, "телефон".toList]

/-- Source `simpleHeuristicDecision`. -/
def simpleHeuristicDecision (lower : Char → Char) (task : List Char) (obs : Observation)
    (mem : Memory) : llmAction :=
  let lowTask := ToLower lower task
  let last := ToLower lower mem.LastAction
  if alreadyInInbox lower obs then
    { Tool := "open_first_main_item".toList, Args := [],
      Comment := "Открываю первое письмо из центрального списка".toList }
  else if loginWanted lower lowTask obs && loginField lower obs ≠ [] then
    { Tool := "type".toList,
      Args := [("selector".toList, .str (loginField lower obs)), ("text".toList, .str [])],
      Comment := "Ожидаю логин от пользователя".toList }
  else if hasAny lowTask ["почт".toList, "mail".toList, "email".toList, "входящие".toList,
      "яндекс".toList] && !Contains (ToLower lower obs.URL) "mail".toList then
    { Tool := "goto_url".toList, Args := [("url".toList, .str (guessMailURL lowTask))],
      Comment := "Переход к почтовому сервису".toList }
  else if findByText lower obs.Candidates ["Входящие".toList, "Inbox".toList] ≠ [] &&
      !Contains last "inbox".toList then
    { Tool := "click".toList,
      Args := [("selector".toList,
        .str (findByText lower obs.Candidates ["Входящие".toList, "Inbox".toList]))],
      Comment := "Открываю Inbox".toList }
  else if Contains (ToLower lower obs.Snapshot) "inbox".toList ||
      Contains (ToLower lower obs.Snapshot) "письм".toList then
    { Tool := "scroll".toList, Args := [("y".toList, .float 800)],
      Comment := "Прокрутка списка писем".toList }
  else
    { Tool := "answer_or_ask_user".toList, Args := [],
      Comment := "Нужна доп. информация (вы уже авторизованы и открыт Inbox?).".toList }

/-! ## `tools.go`: the tool dispatcher

The browser page (`playwright.Page`) and the chat-completion backend are outside
the repository.  They are an environment `Env σ` over a state `σ` of the outside
world: each interaction takes the current state and answers with its outcome and
the next state. -/

/-- The page interaction of one branch of `Tools.Call`, after the arguments were
read and checked. -/
inductive PageOp where
  | goto (url : List Char)
  | click (selector : List Char)
  | openFirstMainItem
  | typeText (selector text : List Char) (pressEnter : Bool)
  | press (key : List Char)
  | scrollTo (selector : List Char)
  | scrollBy (y : Rat)
  deriving DecidableEq

/-- The outside world of one task. -/
structure Env (σ : Type) where
  /-- `os.Getenv("OPENAI_API_KEY")`. -/
  apiKey : List Char
  /-- The HTTP round trip and JSON decoding of `decideWithOpenAI`, given task,
  observation and last action: an error or the decoded action. -/
  llm : σ → List Char → Observation → List Char → Except (List Char) llmAction × σ
  /-- Source `observe(ctx, page, maxCandidates)`; it never fails. -/
  observe : σ → Nat → Observation × σ
  /-- The page interaction of a tool: `none` on success, the error otherwise. -/
  page : σ → PageOp → Option (List Char) × σ
  /-- The page reads of the tool `extract`, formatted. -/
  extract : σ → List Char × σ
  /-- Source `WaitIdle(page)`. -/
  waitIdle : σ → σ
  /-- The pause `time.Sleep(150 * time.Millisecond)` at the end of a step. -/
  sleep : σ → σ
  /-- The case table of `unicode.ToLower`. -/
  lower : Char → Char

/-- A map lookup `args[k]`. -/
def argGet : List (List Char × ArgVal) → List Char → Option ArgVal
  | [], _ => none
  | (k, v) :: rest, key => if k = key then some v else argGet rest key

/-- The type assertion `args[k].(string)` with its zero value. -/
def argStr (args : List (List Char × ArgVal)) (k : List Char) : List Char :=
  match argGet args k with
  | some (.str s) => s
  | _ => []

/-- The type assertion `args[k].(bool)` with its zero value. -/
def argBool (args : List (List Char × ArgVal)) (k : List Char) : Bool :=
  match argGet args k with
  | some (.bool b) => b
  | _ => false

/-- The outcome of a page operation as the pair `(string, error)` of `Tools.Call`. -/
def pageResult {σ : Type} (ok : List Char) (r : Option (List Char) × σ) :
    Except (List Char) (List Char) × σ :=
  match r with
  | (none, w) => (.ok ok, w)
  | (some e, w) => (.error e, w)

/-- Source `(*Tools).Call`. -/
def Call {σ : Type} (env : Env σ) (w : σ) (name : List Char)
    (args : List (List Char × ArgVal)) : Except (List Char) (List Char) × σ :=
  if name = "goto_url".toList then
    let url := argStr args "url".toList
    if url = [] then (.error "goto_url: empty url".toList, w)
    else pageResult "navigated".toList (env.page w (.goto url))
  else if name = "click".toList then
    let selector := normalizeSelector (argStr args "selector".toList)
    if selector = [] then (.error "click: empty selector".toList, w)
    else pageResult ("clicked selector=".toList ++ selector) (env.page w (.click selector))
  else if name = "open_first_main_item".toList then
    pageResult "opened_first_main_item".toList (env.page w .openFirstMainItem)
  else if name = "type".toList then
    let selector := normalizeSelector (argStr args "selector".toList)
    if selector = [] then (.error "type: empty selector".toList, w)
    else pageResult "typed".toList
      (env.page w (.typeText selector (argStr args "text".toList) (argBool args "pressEnter".toList)))
  else if name = "press".toList then
    let key := argStr args "key".toList
    pageResult "pressed".toList (env.page w (.press (if key = [] then "Escape".toList else key)))
  else if name = "scroll".toList then
    let sel := argStr args "selector".toList
    if sel ≠ [] then pageResult "scrolled-to".toList (env.page w (.scrollTo sel))
    else
      let y : Rat := match argGet args "y".toList with
        | some (.float v) => if v ≠ 0 then v else 600
        | _ => 600
      pageResult "scrolled".toList (env.page w (.scrollBy y))
  else if name = "extract".toList then
    ((.ok (env.extract w).1), (env.extract w).2)
  else if name = "answer_or_ask_user".toList then (.ok "done".toList, w)
  else (.error ("unknown tool: ".toList ++ name), w)

/-! ## `agent.go`: planning and the control loop -/

/-- Source `decideWithOpenAI`: the backend round trip, then the check of the tool name. -/
def decideWithOpenAI {σ : Type} (env : Env σ) (w : σ) (task : List Char) (obs : Observation)
    (lastAction : List Char) : Except (List Char) llmAction × σ :=
  match env.llm w task obs lastAction with
  | (.error e, w1) => (.error e, w1)
  | (.ok act, w1) =>
    if act.Tool = [] then (.error "LLM returned empty tool".toList, w1) else (.ok act, w1)

/-- Source `decide` (agent.go), named `planStep` here since `decide` is Lean's
decision procedure. -/
def planStep {σ : Type} (env : Env σ) (w : σ) (task : List Char) (obs : Observation)
    (mem : Memory) : Except (List Char) llmAction × σ :=
  if TrimSpace env.apiKey ≠ [] then decideWithOpenAI env w task obs mem.LastAction
  else (.ok (simpleHeuristicDecision env.lower task obs mem), w)

/-- The variables of `Run` that live across iterations, with the world. -/
structure LoopState (σ : Type) where
  world : σ
  mem : Memory
  obs : Observation
  lastURL : List Char
  lastHash : List Char
  noProgress : Nat

instance : DecidableEq (Except (List Char) (List Char))
  | .ok a, .ok b =>
    if h : a = b then isTrue (congrArg Except.ok h) else isFalse fun h2 => h (Except.ok.inj h2)
  | .error a, .error b =>
    if h : a = b then isTrue (congrArg Except.error h)
    else isFalse fun h2 => h (Except.error.inj h2)
  | .ok _, .error _ => isFalse fun h => Except.noConfusion h
  | .error _, .ok _ => isFalse fun h => Except.noConfusion h

/-- What one iteration of the loop of `Run` did: the planned action, the outcome of
its dispatch, whether the new fingerprint equals `lastHash`, the counter
`noProgress` after that comparison, and the tools force-executed by the recovery
branch, each with whether it succeeded. -/
structure StepLog where
  act : llmAction
  res : Except (List Char) (List Char)
  unchanged : Bool
  noProgress : Nat
  forced : List (List Char × Bool)
  deriving DecidableEq

/-- How one iteration ends: `return fmt.Errorf(...)`, `return nil`, or the next iteration. -/
inductive StepEnd (σ : Type) where
  | planFailed (e : List Char) (w : σ)
  | finished (log : StepLog) (w : σ)
  | next (log : StepLog) (st : LoopState σ)

/-- The recovery branch of the loop body (`if noProgress >= 2`): the forced
`open_first_main_item`; when it succeeds the forced observation is adopted, the
counter is reset and the iteration ends with `continue`; when it fails `scroll`
is forced and the iteration goes on to its normal end. -/
def recovery {σ : Type} (env : Env σ) (act : llmAction) (res : Except (List Char) (List Char))
    (unchanged : Bool) (noProgress : Nat) (mem : Memory) (newObs : Observation) (w4 : σ) :
    StepEnd σ :=
  match Call env w4 "open_first_main_item".toList [] with
  | (.ok _, w5) =>
    let w6 := env.waitIdle w5
    let forcedObs := (env.observe w6 36).1
    let w7 := (env.observe w6 36).2
    .next ⟨act, res, unchanged, noProgress, [("open_first_main_item".toList, true)]⟩
      ⟨w7, mem, forcedObs, forcedObs.URL, hashSnap forcedObs.Snapshot, 0⟩
  | (.error _, w5) =>
    let r := (Call env w5 "scroll".toList [("y".toList, .int 800)]).1
    let w6 := (Call env w5 "scroll".toList [("y".toList, .int 800)]).2
    let w7 := env.waitIdle w6
    .next ⟨act, res, unchanged, noProgress,
        [("open_first_main_item".toList, false), ("scroll".toList, r.toBool)]⟩
      ⟨env.sleep w7, mem, newObs, newObs.URL, hashSnap newObs.Snapshot, noProgress⟩

/-- The end of the loop body, after the counter was updated: `return nil` for
`answer_or_ask_user`, the recovery branch when the counter reached two, the
normal end of the iteration otherwise. -/
def conclude {σ : Type} (env : Env σ) (act : llmAction) (res : Except (List Char) (List Char))
    (unchanged : Bool) (noProgress : Nat) (mem : Memory) (newObs : Observation) (w4 : σ) :
    StepEnd σ :=
  if act.Tool = "answer_or_ask_user".toList then
    .finished ⟨act, res, unchanged, noProgress, []⟩ w4
  else if 2 ≤ noProgress then
    recovery env act res unchanged noProgress mem newObs w4
  else
    .next ⟨act, res, unchanged, noProgress, []⟩
      ⟨env.sleep w4, mem, newObs, newObs.URL, hashSnap newObs.Snapshot, noProgress⟩

/-- The loop body after `tools.Call` returned `res`: the memory update, the new
observation, the comparison of the fingerprints and the update of the counter. -/
def evaluate {σ : Type} (env : Env σ) (st : LoopState σ) (act : llmAction)
    (res : Except (List Char) (List Char)) (w2 : σ) : StepEnd σ :=
  let mem := match res with
    | .error e => st.mem.SetLastAction ("error: ".toList ++ e)
    | .ok r => st.mem.SetLastAction (act.Tool ++ ": ".toList ++ r)
  let w3 := env.waitIdle w2
  let newObs := (env.observe w3 36).1
  let w4 := (env.observe w3 36).2
  let unchanged : Bool := hashSnap newObs.Snapshot = st.lastHash
  let noProgress := if unchanged then st.noProgress + 1 else 0
  conclude env act res unchanged noProgress mem newObs w4

/-- The body of the `for` loop of `Run`: plan, dispatch, evaluate. -/
def stepBody {σ : Type} (env : Env σ) (task : List Char) (st : LoopState σ) : StepEnd σ :=
  match planStep env st.world task st.obs st.mem with
  | (.error e, w1) => .planFailed e w1
  | (.ok act, w1) =>
    evaluate env st act (Call env w1 act.Tool act.Args).1 (Call env w1 act.Tool act.Args).2

/-- The error value that `Run` returns. -/
inductive Outcome where
  | planError (e : List Char)
  | success
  | stepLimit
  deriving DecidableEq

/-- The message of the returned `error`; `none` is `nil`. -/
def Outcome.error : Outcome → Option (List Char)
  | .planError e => some ("ошибка планирования: ".toList ++ e)
  | .success => none
  | .stepLimit => some "достигнут лимит шагов".toList

/-- The loop `for step := 1; step <= maxSteps; step++` of `Run` with `n` iterations
left: the returned value and the log of the iterations performed. -/
def loop {σ : Type} (env : Env σ) (task : List Char) : Nat → LoopState σ → Outcome × List StepLog
  | 0, _ => (.stepLimit, [])
  | n + 1, st =>
    match stepBody env task st with
    | .planFailed e _ => (.planError e, [])
    | .finished log _ => (.success, [log])
    | .next log st1 => ((loop env task n st1).1, log :: (loop env task n st1).2)

/-- Source constant `maxSteps`. -/
def maxSteps : Nat := 40

/-- Source `Run`. -/
def Run {σ : Type} (env : Env σ) (w : σ) (userTask : List Char) : Outcome × List StepLog :=
  let obs := (env.observe w 24).1
  let w1 := (env.observe w 24).2
  loop env userTask maxSteps ⟨w1, Memory.New, obs, obs.URL, hashSnap obs.Snapshot, 0⟩

/-! ## Reading the log of a run -/

/-- The tool name `answer_or_ask_user`. -/
def toolAnswer : List Char := "answer_or_ask_user".toList

/-- The tool name `open_first_main_item`. -/
def toolOpenFirst : List Char := "open_first_main_item".toList

/-- The tool name `scroll`. -/
def toolScroll : List Char := "scroll".toList

/-- The forced calls that the recovery branch can leave in the log of a step whose
counter reached two: a successful `open_first_main_item`, or a failed one
followed by `scroll`. -/
def RecoveryShape (forced : List (List Char × Bool)) : Prop :=
  forced = [(toolOpenFirst, true)] ∨ ∃ b, forced = [(toolOpenFirst, false), (toolScroll, b)]

/-- What the body of the loop guarantees about the log of one step that started with
the counter at `np`. -/
def StepOK (np : Nat) (r : StepLog) : Prop :=
  r.noProgress = (if r.unchanged then np + 1 else 0) ∧
  (r.act.Tool = toolAnswer → r.forced = []) ∧
  (r.noProgress < 2 → r.forced = []) ∧
  (r.act.Tool ≠ toolAnswer → 2 ≤ r.noProgress → RecoveryShape r.forced)

/-- The value of `noProgress` at the start of the step after `r`: zero after a
successful forced recovery, otherwise the counter of `r`. -/
def nextNoProgress (r : StepLog) : Nat :=
  if r.forced = [(toolOpenFirst, true)] then 0 else r.noProgress

/-- The steps of a log follow one another: each starts with the counter its
predecessor left. -/
def Chain : Nat → List StepLog → Prop
  | _, [] => True
  | np, r :: rest => StepOK np r ∧ Chain (nextNoProgress r) rest

/-- A scripted world for evaluating `Run`: the state counts the planning calls and
the `open_first_main_item` calls.  The backend plans `scroll` except for
`answer_or_ask_user` at planning call `answerAt`; the page never changes its text;
the first `failOpens` calls of `open_first_main_item` fail and every other page
operation succeeds. -/
def scriptEnv (failOpens answerAt : Nat) : Env (Nat × Nat) where
  apiKey := "key".toList
  llm := fun w _ _ _ =>
    (.ok (if w.1 + 1 = answerAt then ⟨toolAnswer, [], "done".toList⟩
      else ⟨toolScroll, [("y".toList, .float 300)], []⟩), (w.1 + 1, w.2))
  observe := fun w _ => (⟨"News".toList, "https://example.com/".toList, "headlines".toList, []⟩, w)
  page := fun w op =>
    match op with
    | .openFirstMainItem =>
      (if w.2 < failOpens then some "open_first_main_item: no element in main region".toList
        else none, (w.1, w.2 + 1))
    | _ => (none, w)
  extract := fun w => ([], w)
  waitIdle := fun w => w
  sleep := fun w => w
  lower := unicodeToLower

/-- The log of a step of a run in `scriptEnv` that planned `scroll`: the page text is
unchanged, the counter is `np`, and `forced` are the forced calls. -/
def scrollStep (np : Nat) (forced : List (List Char × Bool)) : StepLog :=
  ⟨⟨toolScroll, [("y".toList, .float 300)], []⟩, .ok "scrolled".toList, true, np, forced⟩

/-- The log of the step of a run in `scriptEnv` that planned `answer_or_ask_user`. -/
def answerStep (np : Nat) : StepLog :=
  ⟨⟨toolAnswer, [], "done".toList⟩, .ok "done".toList, true, np, []⟩

/-! ## `candidates.go`: candidate extraction

The page elements answered by `page.QuerySelectorAll` are records of what the loop
reads from each of them.  The tables of the standard library that the extraction
uses are the parameter `Unicode`. -/

/-- The Unicode tables of the Go standard library: `unicode.ToLower`,
`strings.EqualFold` and `strconv.IsPrint`. -/
structure Unicode where
  lower : Char → Char
  equalFold : List Char → List Char → Bool
  isPrint : Char → Bool

/-- The tables on Basic Latin and on the Cyrillic letters U+0400 to U+044F, with the
ellipsis U+2026 printable; every other rune is taken to be caseless and not
printable.  They instantiate `Unicode` where the model is evaluated on concrete
texts written with those runes. -/
def basicUnicode : Unicode where
  lower := unicodeToLower
  equalFold := fun s t => s.map unicodeToLower = t.map unicodeToLower
  isPrint := fun c =>
    (0x20 ≤ c.toNat && c.toNat < 0x7F) || (0x400 ≤ c.toNat && c.toNat ≤ 0x44F) ||
      c.toNat = 0x2026

/-- What one iteration of the loop of `CollectCandidates` reads from its element:
`IsVisible`, the evaluated tag name as `fmt.Sprint` renders it, the attributes
(`GetAttribute` answers the empty text for a missing one), the two texts, and the
bounding box as `%.0f,%.0f,%.0f,%.0f` renders it (`none` for `nil`).  The
attributes `class`, `aria-selected` and `aria-current` are read twice. -/
structure Element where
  visible : Bool
  tagName : List Char
  id : List Char
  typ : List Char
  role : List Char
  aria : List Char
  ph : List Char
  href : List Char
  dq : List Char
  dtid : List Char
  dtest : List Char
  cls : List Char
  ariaSel : List Char
  ariaCur : List Char
  innerText : List Char
  textContent : List Char
  box : Option (List Char)
  cls2 : List Char
  ariaSel2 : List Char
  ariaCur2 : List Char
  deriving DecidableEq

/-- Go `strings.Join`. -/
def Join : List (List Char) → List Char → List Char
  | [], _ => []
  | [a], _ => a
  | a :: b :: rest, sep => a ++ sep ++ Join (b :: rest) sep

/-- Go `strings.IndexByte` for an ASCII byte: the index of its first occurrence. -/
def IndexByte : List Char → Char → Option Nat
  | [], _ => none
  | a :: s, c => if a = c then some 0 else (IndexByte s c).map (· + 1)

/-- The escape of `strconv.Quote` for a rune that is not printed as it is. -/
def escapeRune (c : Char) : List Char :=
  let n := c.toNat
  if n = 7 then "\\a".toList
  else if n = 8 then "\\b".toList
  else if n = 12 then "\\f".toList
  else if n = 10 then "\\n".toList
  else if n = 13 then "\\r".toList
  else if n = 9 then "\\t".toList
  else if n = 11 then "\\v".toList
  else if n < 0x20 ∨ n = 0x7F then ['\\', 'x', hexDigit (n / 16 % 16), hexDigit (n % 16)]
  else if n < 0x10000 then
    ['\\', 'u', hexDigit (n / 16 ^ 3 % 16), hexDigit (n / 16 ^ 2 % 16), hexDigit (n / 16 % 16),
      hexDigit (n % 16)]
  else '\\' :: 'U' :: hex8 n

/-- One rune under the verb `%q`: quote and backslash get a backslash, a printable
rune stands for itself, every other rune is escaped. -/
def quoteRune (U : Unicode) (c : Char) : List Char :=
  if c = '"' ∨ c = '\\' then ['\\', c]
  else if U.isPrint c then [c]
  else escapeRune c

/-- The verb `%q` of `fmt.Sprintf` on a string (`strconv.Quote`). -/
def Quote (U : Unicode) (s : List Char) : List Char :=
  '"' :: (s.map (quoteRune U)).flatten ++ "\"".toList

/-- Source `crop`: newlines become spaces; a text of more than `n` runes is cut to
`n` runes and gets an ellipsis. -/
def crop (s : List Char) (n : Nat) : List Char :=
  let s := ReplaceAll s "\n".toList " ".toList
  if s.length ≤ n then s else s.take n ++ "…".toList

/-- Source `ifNonEmpty`. -/
def ifNonEmpty (k v : List Char) : List Char :=
  if TrimSpace v = [] then [] else k ++ "=".toList ++ v

/-- Source `tagOrInput`. -/
def tagOrInput (tag : List Char) : List Char :=
  if tag = [] then "input,button,a,textarea,select".toList else tag

/-- Source `awaitNth`. -/
def awaitNth (base : List Char) : List Char :=
  base

/-- Source `guessRole`. -/
def guessRole (tag typ href : List Char) : List Char :=
  if tag = "a".toList ∨ href ≠ [] then "link".toList
  else if tag = "input".toList ∨ tag = "textarea".toList then
    if typ = "submit".toList then "button".toList else "textbox".toList
  else if tag = "button".toList then "button".toList
  else []

/-- The variable `tagStr` of the loop. -/
def tagStr (U : Unicode) (e : Element) : List Char :=
  ToLower U.lower (TrimSpace e.tagName)

/-- The variable `selected` of the loop, from one reading of the three attributes. -/
def isSelected (U : Unicode) (cls ariaSel ariaCur : List Char) : Bool :=
  U.equalFold ariaSel "true".toList || U.equalFold ariaCur "page".toList ||
    Contains (ToLower U.lower cls) "selected".toList ||
    Contains (ToLower U.lower cls) "active".toList ||
    Contains (ToLower U.lower cls) "current".toList

/-- The test `tagStr == "a" || role == "link" || role == "menuitem" || role == "tab"`. -/
def isNavigation (tag role : List Char) : Bool :=
  tag = "a".toList || role = "link".toList || role = "menuitem".toList || role = "tab".toList

/-- The variable `role` of the loop after `if role == "" { role = guessRole(...) }`. -/
def roleOf (U : Unicode) (e : Element) : List Char :=
  if e.role = [] then guessRole (tagStr U e) e.typ e.href else e.role

/-- The variable `txtNorm` of the loop. -/
def txtNorm (e : Element) : List Char :=
  ReplaceAll (if TrimSpace e.innerText = [] then e.textContent else e.innerText)
    [Char.ofNat 0xA0] " ".toList

/-- The `switch` of the loop that synthesizes the selector, with the
`strings.TrimSpace` after it. -/
def synthSelector (U : Unicode) (e : Element) : List Char :=
  let base := tagOrInput (tagStr U e)
  let s :=
    if e.id ≠ [] then "[id=".toList ++ Quote U e.id ++ "]".toList
    else if e.dq ≠ [] then "[data-qa=".toList ++ Quote U e.dq ++ "]".toList
    else if e.dtid ≠ [] then "[data-testid=".toList ++ Quote U e.dtid ++ "]".toList
    else if e.dtest ≠ [] then "[data-test=".toList ++ Quote U e.dtest ++ "]".toList
    else if e.href ≠ [] then
      let trimmed := match IndexByte e.href '#' with
        | some i => e.href.take i
        | none => e.href
      "a[href*=".toList ++ Quote U (crop trimmed 40) ++ "]".toList
    else if e.ph ≠ [] then base ++ "[placeholder*=".toList ++ Quote U (crop e.ph 40) ++ "]".toList
    else if e.aria ≠ [] then
      base ++ "[aria-label*=".toList ++ Quote U (crop e.aria 40) ++ "]".toList
    else
      let short := TrimSpace (crop (txtNorm e) 60)
      if short ≠ [] then base ++ ":has-text(".toList ++ Quote U short ++ ")".toList
      else awaitNth base
  TrimSpace s

/-- The variable `desc` of the loop. -/
def descOf (U : Unicode) (e : Element) (selected : Bool) : List Char :=
  TrimSpace (Join
    ["tag=".toList ++ tagStr U e, "role=".toList ++ roleOf U e,
     ifNonEmpty "type".toList e.typ, ifNonEmpty "text".toList (crop (txtNorm e) 80),
     ifNonEmpty "placeholder".toList e.ph, ifNonEmpty "href".toList (crop e.href 80),
     ifNonEmpty "data-qa".toList e.dq, ifNonEmpty "data-testid".toList e.dtid,
     ifNonEmpty "data-test".toList e.dtest,
     ifNonEmpty "state".toList (if selected then "state=selected".toList else [])]
    "; ".toList)

/-- One iteration of the loop of `CollectCandidates` up to the look-up in `seen`:
`none` where the iteration ends with `continue` (invisible element, selected
navigation item at either test, empty selector), otherwise the candidate that
the iteration appends unless its selector was seen. -/
def processElement (U : Unicode) (e : Element) : Option Candidate :=
  if !e.visible then none
  else if isSelected U e.cls e.ariaSel e.ariaCur && isNavigation (tagStr U e) e.role then none
  else if isSelected U e.cls2 e.ariaSel2 e.ariaCur2 && isNavigation (tagStr U e) (roleOf U e)
    then none
  else if synthSelector U e = [] then none
  else
    some
      { Selector := synthSelector U e
        Tag := tagStr U e
        Role := roleOf U e
        Text := crop (txtNorm e) 80
        Desc := descOf U e (isSelected U e.cls2 e.ariaSel2 e.ariaCur2)
        BBox := e.box.getD []
        Href := e.href
        Selected := isSelected U e.cls2 e.ariaSel2 e.ariaCur2
        Region := [] }

/-- The loop `for _, e := range elems` of `CollectCandidates`, from the current `out`
and the selectors in `seen`. -/
def collectLoop (U : Unicode) (limit : Int) :
    List Element → List Candidate → List (List Char) → List Candidate
  | [], out, _ => out
  | e :: es, out, seen =>
    match processElement U e with
    | none => collectLoop U limit es out seen
    | some c =>
      if c.Selector ∈ seen then collectLoop U limit es out seen
      else if 0 < limit ∧ limit ≤ ((out ++ [c]).length : Int) then out ++ [c]
      else collectLoop U limit es (out ++ [c]) (c.Selector :: seen)

/-- How a call of `CollectCandidates` ends: with candidates, with the error of
`QuerySelectorAll`, or in the run-time panic of `make([]Candidate, 0, limit)` for
a negative capacity. -/
inductive Collected where
  | ok (out : List Candidate)
  | error (e : List Char)
  | panic
  deriving DecidableEq

/-- The candidates that a call returns; none when it ends in an error or a panic. -/
def Collected.candidates : Collected → List Candidate
  | .ok out => out
  | .error _ => []
  | .panic => []

/-- Source `CollectCandidates`, given what `page.QuerySelectorAll(sel)` answers. -/
def CollectCandidates (U : Unicode) (query : Except (List Char) (List Element)) (limit : Int) :
    Collected :=
  match query with
  | .error e => .error e
  | .ok elems => if limit < 0 then .panic else .ok (collectLoop U limit elems [] [])

/-- The selector that the specification describes for an element with an `href`:
query string and fragment stripped, cropped to 40 characters, between plain
double quotes. -/
def specHrefSelector (href : List Char) : List Char :=
  "a[href*=\"".toList ++
    crop (href.takeWhile fun c => c ≠ '?' ∧ c ≠ '#') 40 ++ "\"]".toList

/-- A visible element that has just a tag name and the given `id` and `href`. -/
def linkElement (id href : List Char) : Element :=
  { visible := true, tagName := "a".toList, id := id, typ := [], role := [], aria := [],
    ph := [], href := href, dq := [], dtid := [], dtest := [], cls := [], ariaSel := [],
    ariaCur := [], innerText := [], textContent := [], box := none, cls2 := [],
    ariaSel2 := [], ariaCur2 := [] }

theorem stripLit_eq_some {lit s r : List Char} : stripLit lit s = some r ↔ s = lit ++ r := by
  induction lit generalizing s with
  | nil => simp [stripLit, eq_comm]
  | cons a lit ih =>
    cases s with
    | nil => simp [stripLit]
    | cons c s =>
      by_cases h : a = c
      · subst h; simp [stripLit, ih]
      · simp [stripLit, h]
        intro h2; exact absurd h2.symm h

theorem Contains_iff {s sub : List Char} : Contains s sub = true ↔ sub <:+: s := by
  induction s with
  | nil =>
    cases sub with
    | nil => simp [Contains, stripLit]
    | cons a sub => simp [Contains, stripLit]
  | cons c s ih =>
    rw [Contains, Bool.or_eq_true, ih, Option.isSome_iff_exists]
    constructor
    · rintro (⟨r, hr⟩ | h)
      · rw [stripLit_eq_some] at hr
        exact ⟨[], r, by simp [hr]⟩
      · obtain ⟨a, b, hab⟩ := h
        exact ⟨c :: a, b, by simp [← hab]⟩
    · rintro ⟨a, b, hab⟩
      cases a with
      | nil => left; exact ⟨b, stripLit_eq_some.mpr (by simpa using hab.symm)⟩
      | cons x a =>
        right
        simp at hab
        exact ⟨a, b, by simp [hab.2]⟩

theorem replaceScan_none {m : List Char → Option (List Char × Nat)} {s : List Char}
    (h : ∀ t, t <:+ s → m t = none) : replaceScan m 0 s = s := by
  induction s with
  | nil => simp [replaceScan]
  | cons c s ih =>
    rw [replaceScan, h (c :: s) (List.suffix_refl _)]
    simp only [List.cons.injEq, true_and]
    exact ih fun t ht => h t (ht.trans (List.suffix_cons c s))

theorem findScan_none {m : List Char → Option (List Char × Nat)} {s : List Char}
    (h : ∀ t, t <:+ s → m t = none) : findScan m 0 s = [] := by
  induction s with
  | nil => simp [findScan]
  | cons c s ih =>
    rw [findScan, h (c :: s) (List.suffix_refl _)]
    exact ih fun t ht => h t (ht.trans (List.suffix_cons c s))

theorem TrimSpace_eq_rdrop (s : List Char) :
    TrimSpace s = List.rdropWhile isSpace (s.dropWhile isSpace) := rfl

theorem TrimSpace_isInfix (s : List Char) : TrimSpace s <:+: s := by
  rw [TrimSpace_eq_rdrop]
  exact (List.rdropWhile_prefix isSpace _).isInfix.trans (List.dropWhile_suffix isSpace).isInfix

/-- A text whose first and last runes are not spaces is left alone by `TrimSpace`. -/
theorem TrimSpace_eq_self {s : List Char} (hh : ∀ c ∈ s.head?, isSpace c = false)
    (hl : ∀ c ∈ s.getLast?, isSpace c = false) : TrimSpace s = s := by
  have h1 : s.dropWhile isSpace = s := by
    cases s with
    | nil => rfl
    | cons c s => simp [List.dropWhile, hh c (by simp)]
  rw [TrimSpace_eq_rdrop, h1, List.rdropWhile_eq_self_iff]
  intro hne
  have := hl (s.getLast hne) (by simp [List.getLast?_eq_getLast _ hne])
  simp [this]

theorem TrimSpace_head (s : List Char) : ∀ c ∈ (TrimSpace s).head?, isSpace c = false := by
  intro c hc
  rw [TrimSpace_eq_rdrop] at hc
  obtain ⟨t, ht⟩ := List.rdropWhile_prefix isSpace (s.dropWhile isSpace)
  have hne : s.dropWhile isSpace ≠ [] := by
    intro h0; rw [h0] at hc; simp [List.rdropWhile] at hc
  cases hr : List.rdropWhile isSpace (s.dropWhile isSpace) with
  | nil => rw [hr] at hc; simp at hc
  | cons x r =>
    rw [hr] at hc ht
    simp at hc
    subst hc
    have h2 := List.head_dropWhile_not isSpace s hne
    have h3 : (s.dropWhile isSpace).head hne = x := by
      simp [← ht]
    rw [h3] at h2
    simpa using h2

theorem TrimSpace_last (s : List Char) : ∀ c ∈ (TrimSpace s).getLast?, isSpace c = false := by
  intro c hc
  rw [TrimSpace_eq_rdrop] at hc
  by_cases hne : List.rdropWhile isSpace (s.dropWhile isSpace) = []
  · rw [hne] at hc; simp at hc
  · have := List.rdropWhile_last_not isSpace _ hne
    rw [List.getLast?_eq_getLast _ hne] at hc
    simp at hc
    rw [hc] at this
    simpa using this

theorem TrimSpace_idem (s : List Char) : TrimSpace (TrimSpace s) = TrimSpace s :=
  TrimSpace_eq_self (TrimSpace_head s) (TrimSpace_last s)

theorem stripLit_none_of_not_Contains {lit s t : List Char} (hs : Contains s lit = false)
    (ht : t <:+ s) : stripLit lit t = none := by
  cases h : stripLit lit t with
  | none => rfl
  | some r =>
    exfalso
    rw [stripLit_eq_some] at h
    have h1 : lit <:+: s := (List.infix_append' [] lit r).trans (by rw [← h]; exact ht.isInfix)
    rw [← Contains_iff, hs] at h1
    exact Bool.false_ne_true h1

theorem matchSelQuoted_none {s t : List Char} (hs : Contains s "sel".toList = false)
    (ht : t <:+ s) : matchSelQuoted t = none := by
  unfold matchSelQuoted
  rw [stripLit_none_of_not_Contains hs ht]
  rfl

theorem bsRun_quote_isInfix (r r2 : List Char)
    (h : stripLit "\"".toList (r.dropWhile (· = '\\')) = some r2) :
    "\\\"".toList <:+: '\\' :: r := by
  induction r with
  | nil => simp [stripLit] at h
  | cons c r ih =>
    by_cases hc : c = '\\'
    · subst hc
      simp only [List.dropWhile, decide_True] at h
      exact (ih h).trans (List.suffix_cons _ _).isInfix
    · simp only [List.dropWhile, hc, decide_False] at h
      rw [stripLit_eq_some] at h
      exact ⟨[], r2, by simp [h]⟩

theorem matchBackslashQ_none {s t : List Char} (hs : Contains s "\\\"".toList = false)
    (ht : t <:+ s) : matchBackslashQ t = none := by
  cases hm : matchBackslashQ t with
  | none => rfl
  | some x =>
    exfalso
    simp only [matchBackslashQ, Option.bind_eq_some, Option.map_eq_some'] at hm
    obtain ⟨r, hr, r2, hr2, -⟩ := hm
    rw [stripLit_eq_some] at hr
    have h1 := bsRun_quote_isInfix r r2 hr2
    have h2 : "\\\"".toList <:+: s := h1.trans (by
      have : t = '\\' :: r := by simpa using hr
      rw [← this]; exact ht.isInfix)
    rw [← Contains_iff, hs] at h2
    exact Bool.false_ne_true h2

theorem caseISuffix_eq_some {run g : List Char} (h : caseISuffix run = some g) :
    ∃ w, run = g ++ [w, 'i'] := by
  unfold caseISuffix at h
  split at h
  · rename_i i w a pre hrev
    split at h
    · rename_i hc
      simp only [Bool.and_eq_true, decide_eq_true_eq] at hc
      simp only [Option.some.injEq] at h
      refine ⟨w, ?_⟩
      have := congrArg List.reverse hrev
      rw [List.reverse_reverse] at this
      rw [this, ← h, hc.1]
      simp
    · exact absurd h (by simp)
  · exact absurd h (by simp)

theorem matchAttrCaseI_none {s t : List Char} (hs : Contains s "i]".toList = false)
    (ht : t <:+ s) : matchAttrCaseI t = none := by
  cases hm : matchAttrCaseI t with
  | none => rfl
  | some x =>
    exfalso
    simp only [matchAttrCaseI, Option.bind_eq_some, Option.map_eq_some'] at hm
    obtain ⟨r, hr, r2, hr2, g, hg, -⟩ := hm
    rw [stripLit_eq_some] at hr hr2
    obtain ⟨w, hw⟩ := caseISuffix_eq_some hg
    have hsplit := List.takeWhile_append_dropWhile isNotClose r
    rw [hw, hr2] at hsplit
    have h2 : "i]".toList <:+: s := by
      refine List.IsInfix.trans ?_ ht.isInfix
      refine ⟨'[' :: g ++ [w], r2, ?_⟩
      rw [hr, ← hsplit]
      simp
    rw [← Contains_iff, hs] at h2
    exact Bool.false_ne_true h2

theorem Contains_false_of_isInfix {s t x : List Char} (ht : t <:+: s)
    (hs : Contains s x = false) : Contains t x = false := by
  cases h : Contains t x with
  | false => rfl
  | true =>
    have := (Contains_iff.mp h).trans ht
    rw [← Contains_iff, hs] at this
    exact absurd this Bool.false_ne_true

theorem Contains_false_of_not_mem {s x : List Char} {a : Char} (ha : a ∉ s) :
    Contains s (a :: x) = false := by
  cases h : Contains s (a :: x) with
  | false => rfl
  | true =>
    obtain ⟨p, q, hpq⟩ := Contains_iff.mp h
    exact absurd (by rw [← hpq]; simp) ha

theorem isSpace_of_isReDigit {c : Char} (h : isReDigit c = true) : isSpace c = false := by
  simp only [isReDigit, Bool.and_eq_true, decide_eq_true_eq] at h
  simp only [isSpace, Bool.or_eq_false_iff, Bool.and_eq_false_iff, decide_eq_false_iff_not]
  omega

theorem getLast?_idAttr (p ds : List Char) :
    (p ++ ds ++ "\"]".toList).getLast? = some ']' := by
  have : p ++ ds ++ "\"]".toList = (p ++ ds ++ ['"']) ++ [']'] := by simp
  rw [this, List.getLast?_concat]

/-- On a text without `\"`, `sel` and `i]` the first four passes of
`normalizeSelector` change nothing. -/
theorem normalizeSelector_clean {s : List Char}
    (hq : Contains s "\\\"".toList = false) (hsel : Contains s "sel".toList = false)
    (hi : Contains s "i]".toList = false) :
    normalizeSelector s =
      if reNumID (TrimSpace s) then
        "[id=\"".toList ++ TrimPrefix (TrimSpace s) "#".toList ++ "\"]".toList
      else TrimSpace s := by
  have hinf := TrimSpace_isInfix s
  have hq2 := Contains_false_of_isInfix hinf hq
  have hsel2 := Contains_false_of_isInfix hinf hsel
  have hi2 := Contains_false_of_isInfix hinf hi
  have h1 : findScan matchSelQuoted 0 (TrimSpace s) = [] :=
    findScan_none fun t ht => matchSelQuoted_none hsel2 ht
  have h2 : ReplaceAll (TrimSpace s) "\\\"".toList "\"".toList = TrimSpace s :=
    replaceScan_none fun t ht => by rw [stripLit_none_of_not_Contains hq2 ht]; rfl
  have h3 : replaceScan matchBackslashQ 0 (TrimSpace s) = TrimSpace s :=
    replaceScan_none fun t ht => matchBackslashQ_none hq2 ht
  have h4 : replaceScan matchAttrCaseI 0 (TrimSpace s) = TrimSpace s :=
    replaceScan_none fun t ht => matchAttrCaseI_none hi2 ht
  unfold normalizeSelector
  simp only [h1, List.getLast?_nil, h2, h3, h4]
  by_cases h0 : TrimSpace s = []
  · simp [h0, reNumID]
  · rw [if_neg h0]
    by_cases hn : reNumID (TrimSpace s) = true
    · rw [if_pos hn]
      apply TrimSpace_eq_self
      · intro c hc; simp at hc; subst hc; decide
      · intro c hc
        rw [getLast?_idAttr] at hc
        simp at hc; subst hc; decide
    · rw [if_neg hn]
      exact TrimSpace_idem s

theorem reNumID_eq_true {s : List Char} (h : reNumID s = true) :
    ∃ d ds, s = '#' :: d :: ds ∧ (d :: ds).all isReDigit = true := by
  unfold reNumID at h
  split at h
  · rename_i c d ds
    simp only [Bool.and_eq_true, decide_eq_true_eq] at h
    exact ⟨d, ds, by rw [h.1], h.2⟩
  · exact absurd h (by simp)

/-- The rewritten form of a numeric id is a fixed point of `normalizeSelector`. -/
theorem normalizeSelector_idAttr (ds : List Char) (hd : ds.all isReDigit = true) :
    normalizeSelector ("[id=\"".toList ++ ds ++ "\"]".toList) =
      "[id=\"".toList ++ ds ++ "\"]".toList := by
  have hmem : ∀ c, isReDigit c = false → c ∉ ds := by
    intro c hc hin
    rw [List.all_eq_true] at hd
    rw [hd c hin] at hc
    exact absurd hc (by simp)
  have htrim : TrimSpace ("[id=\"".toList ++ ds ++ "\"]".toList) =
      "[id=\"".toList ++ ds ++ "\"]".toList := by
    apply TrimSpace_eq_self
    · intro c hc; simp at hc; subst hc; decide
    · intro c hc
      rw [getLast?_idAttr] at hc
      simp at hc; subst hc; decide
  rw [normalizeSelector_clean, htrim]
  · simp [reNumID]
  · apply Contains_false_of_not_mem
    have := hmem '\\' (by decide)
    simpa using this
  · apply Contains_false_of_not_mem
    have := hmem 's' (by decide)
    simpa using this
  · have h1 : Contains ('d' :: '=' :: '"' :: (ds ++ "\"]".toList)) "i]".toList = false := by
      apply Contains_false_of_not_mem
      have := hmem 'i' (by decide)
      simpa using this
    simpa [Contains, stripLit] using h1

/-- The case analysis behind C10 and the amended C1. -/
theorem normalizeSelector_numID (ds : List Char) (hne : ds ≠ []) (hd : ds.all isReDigit = true) :
    normalizeSelector ('#' :: ds) = "[id=\"".toList ++ ds ++ "\"]".toList := by
  have hmem : ∀ c, isReDigit c = false → c ≠ '#' → c ∉ '#' :: ds := by
    intro c hc hne hin
    rw [List.all_eq_true] at hd
    rcases List.mem_cons.mp hin with h | h
    · exact hne h
    · rw [hd c h] at hc
      exact absurd hc (by simp)
  have htrim : TrimSpace ('#' :: ds) = '#' :: ds := by
    apply TrimSpace_eq_self
    · intro c hc; simp at hc; subst hc; decide
    · intro c hc
      have hc2 : c ∈ ds.getLast? := by
        cases ds with
        | nil => exact absurd rfl hne
        | cons d ds => simpa [List.getLast?_cons_cons] using hc
      rw [List.all_eq_true] at hd
      exact isSpace_of_isReDigit (hd c (List.mem_of_mem_getLast? hc2))
  have hnum : reNumID ('#' :: ds) = true := by
    cases ds with
    | nil => exact absurd rfl hne
    | cons d ds => simpa [reNumID] using hd
  rw [normalizeSelector_clean, htrim, if_pos hnum]
  · simp [TrimPrefix, stripLit]
  · exact Contains_false_of_not_mem (hmem _ (by decide) (by decide))
  · exact Contains_false_of_not_mem (hmem _ (by decide) (by decide))
  · exact Contains_false_of_not_mem (hmem _ (by decide) (by decide))

theorem TrimSpace_normalizeSelector (s : List Char) :
    TrimSpace (normalizeSelector s) = normalizeSelector s := by
  unfold normalizeSelector
  simp only
  split
  · exact TrimSpace_idem s
  · exact TrimSpace_idem _

theorem settled_iff {t : List Char} :
    settled t = true ↔
      findScan matchSelQuoted 0 t = [] ∧ Contains t "\\\"".toList = false ∧
        replaceScan matchAttrCaseI 0 t = t ∧ reNumID t = false := by
  simp [settled, and_assoc]

/-- A trimmed text with nothing to repair is a fixed point of `normalizeSelector`. -/
theorem normalizeSelector_fixed {t : List Char} (hs : settled t = true)
    (ht : TrimSpace t = t) : normalizeSelector t = t := by
  obtain ⟨h1, hq, h4, h5⟩ := settled_iff.mp hs
  have h2 : ReplaceAll t "\\\"".toList "\"".toList = t :=
    replaceScan_none fun x hx => by rw [stripLit_none_of_not_Contains hq hx]; rfl
  have h3 : replaceScan matchBackslashQ 0 t = t :=
    replaceScan_none fun x hx => matchBackslashQ_none hq hx
  unfold normalizeSelector
  simp only [ht, h1, List.getLast?_nil, h2, h3, h4, h5]
  split
  · rfl
  · simpa using ht

theorem Contains_mem {s x : List Char} (h : Contains s x = true) : ∀ a ∈ x, a ∈ s := by
  obtain ⟨p, q, hpq⟩ := Contains_iff.mp h
  intro a ha
  rw [← hpq]
  simp [ha]

theorem stripLit_mem {lit s r : List Char} (h : stripLit lit s = some r) :
    ∀ a ∈ lit, a ∈ s := by
  rw [stripLit_eq_some] at h
  intro a ha
  rw [h]
  simp [ha]

/-- A match of `reSelQuoted` needs a double quote in the text. -/
theorem matchSelQuoted_quote {t : List Char} {x : List Char × Nat}
    (h : matchSelQuoted t = some x) : '"' ∈ t := by
  simp only [matchSelQuoted, Option.bind_eq_some, Option.map_eq_some'] at h
  obtain ⟨r1, h1, r2, h2, r3, h3, -⟩ := h
  have m3 : '"' ∈ r2 :=
    (List.dropWhile_suffix isReSpace).subset (stripLit_mem h3 '"' (by simp))
  rw [stripLit_eq_some] at h1 h2
  have m2 : '"' ∈ r1 := by
    apply (List.dropWhile_suffix isReSpace).subset
    rw [h2]; simp [m3]
  rw [h1]
  simp [m2]

theorem untilQuote_no_quote {r cap : List Char} (h : untilQuote r = some cap) : '"' ∉ cap := by
  induction r generalizing cap with
  | nil => simp [untilQuote] at h
  | cons c r ih =>
    unfold untilQuote at h
    split at h
    · simp only [Option.some.injEq] at h
      rw [← h]; simp
    · rename_i hc
      split at h
      · exact absurd h (by simp)
      · simp only [Option.map_eq_some'] at h
        obtain ⟨cap2, h2, rfl⟩ := h
        intro hm
        rcases List.mem_cons.mp hm with h3 | h3
        · exact hc h3.symm
        · exact ih h2 h3

theorem matchSelQuoted_capture {t cap : List Char} {n : Nat}
    (h : matchSelQuoted t = some (cap, n)) : '"' ∉ cap := by
  simp only [matchSelQuoted, Option.bind_eq_some, Option.map_eq_some'] at h
  obtain ⟨r1, -, r2, -, r3, -, cap2, h4, h5⟩ := h
  simp only [Prod.mk.injEq] at h5
  rw [← h5.1]
  exact untilQuote_no_quote h4

/-- The content of a `sel="…"` fragment has no double quote. -/
theorem findScan_capture (k : Nat) (t : List Char) :
    ∀ cap ∈ findScan matchSelQuoted k t, '"' ∉ cap := by
  induction t generalizing k with
  | nil => simp [findScan]
  | cons c r ih =>
    cases k with
    | zero =>
      unfold findScan
      cases hm : matchSelQuoted (c :: r) with
      | none => exact ih 0
      | some x =>
        obtain ⟨cap, n⟩ := x
        intro cap2 h2
        rcases List.mem_cons.mp h2 with rfl | h2
        · exact matchSelQuoted_capture hm
        · exact ih _ cap2 h2
    | succ k =>
      unfold findScan
      exact ih k

theorem findScan_nil_of_no_quote {t : List Char} (h : '"' ∉ t) :
    findScan matchSelQuoted 0 t = [] :=
  findScan_none fun x hx => by
    cases hm : matchSelQuoted x with
    | none => rfl
    | some y => exact absurd (hx.subset (matchSelQuoted_quote hm)) h

theorem Contains_false_of_missing {s x : List Char} {a : Char} (hx : a ∈ x) (hs : a ∉ s) :
    Contains s x = false := by
  cases h : Contains s x with
  | false => rfl
  | true => exact absurd (Contains_mem h a hx) hs

theorem TrimSpace_idAttr (ds : List Char) :
    TrimSpace ("[id=\"".toList ++ ds ++ "\"]".toList) = "[id=\"".toList ++ ds ++ "\"]".toList := by
  apply TrimSpace_eq_self
  · intro c hc; simp at hc; subst hc; decide
  · intro c hc
    rw [getLast?_idAttr] at hc
    simp at hc; subst hc; decide

/-- The result for a text whose first pass selects `c`, when the passes 2 to 4 leave
`c` as it is, and the second application to it. -/
theorem normalizeSelector_after_passes {c : List Char}
    (hq : Contains c "\\\"".toList = false) (hi : Contains c "i]".toList = false)
    (hfrag : findScan matchSelQuoted 0 (TrimSpace c) = [])
    (hnum : reNumID (TrimSpace c) = reNumID c) :
    TrimSpace (if reNumID (replaceScan matchAttrCaseI 0
          (replaceScan matchBackslashQ 0 (ReplaceAll c "\\\"".toList "\"".toList))) then
        "[id=\"".toList ++ TrimPrefix (replaceScan matchAttrCaseI 0
          (replaceScan matchBackslashQ 0 (ReplaceAll c "\\\"".toList "\"".toList)))
          "#".toList ++ "\"]".toList
      else replaceScan matchAttrCaseI 0
        (replaceScan matchBackslashQ 0 (ReplaceAll c "\\\"".toList "\"".toList))) =
      (if reNumID c then "[id=\"".toList ++ TrimPrefix c "#".toList ++ "\"]".toList
        else TrimSpace c) ∧
    normalizeSelector
        (if reNumID c then "[id=\"".toList ++ TrimPrefix c "#".toList ++ "\"]".toList
          else TrimSpace c) =
      (if reNumID c then "[id=\"".toList ++ TrimPrefix c "#".toList ++ "\"]".toList
        else TrimSpace c) := by
  have h2 : ReplaceAll c "\\\"".toList "\"".toList = c :=
    replaceScan_none fun x hx => by rw [stripLit_none_of_not_Contains hq hx]; rfl
  have h3 : replaceScan matchBackslashQ 0 c = c :=
    replaceScan_none fun x hx => matchBackslashQ_none hq hx
  have h4 : replaceScan matchAttrCaseI 0 c = c :=
    replaceScan_none fun x hx => matchAttrCaseI_none hi hx
  rw [h2, h3, h4]
  by_cases hn : reNumID c = true
  · simp only [hn, if_true]
    obtain ⟨d, ds, hs, hd⟩ := reNumID_eq_true hn
    have hp : TrimPrefix c "#".toList = d :: ds := by
      rw [hs]; simp [TrimPrefix, stripLit]
    rw [hp]
    exact ⟨TrimSpace_idAttr _, normalizeSelector_idAttr (d :: ds) hd⟩
  · have hn2 : reNumID c = false := by simpa using hn
    rw [hn2]
    simp only [Bool.false_eq_true, if_false]
    refine ⟨trivial, normalizeSelector_fixed ?_ (TrimSpace_idem c)⟩
    have hinf := TrimSpace_isInfix c
    have hq2 := Contains_false_of_isInfix hinf hq
    have hi2 := Contains_false_of_isInfix hinf hi
    refine settled_iff.mpr ⟨hfrag, hq2, ?_, ?_⟩
    · exact replaceScan_none fun x hx => matchAttrCaseI_none hi2 hx
    · rw [hnum]; exact hn2

/-! ## Lemmas on the fingerprint -/

theorem toNat_digitChar (d : Nat) (h : d < 10) : (Char.ofNat (48 + d)).toNat = 48 + d := by
  interval_cases d <;> decide

theorem valRev_decimalRev (fuel n : Nat) (h : n < fuel) : valRev (decimalRev fuel n) = n := by
  induction fuel generalizing n with
  | zero => omega
  | succ f ih =>
    rw [decimalRev, valRev, toNat_digitChar _ (Nat.mod_lt _ (by decide))]
    by_cases h0 : n / 10 = 0
    · rw [if_pos h0, valRev]; omega
    · rw [if_neg h0, ih (n / 10) (by omega)]; omega

theorem decimal_injective {a b : Nat} (h : decimal a = decimal b) : a = b := by
  unfold decimal at h
  have h1 := List.reverse_injective h
  have h2 := congrArg valRev h1
  rwa [valRev_decimalRev _ _ (Nat.lt_succ_self a), valRev_decimalRev _ _ (Nat.lt_succ_self b)] at h2

theorem hexVal_hexDigit (d : Nat) (h : d < 16) : hexVal (hexDigit d) = d := by
  interval_cases d <;> decide

theorem hex8_injective {a b : Nat} (ha : a < 2 ^ 32) (hb : b < 2 ^ 32) (h : hex8 a = hex8 b) :
    a = b := by
  simp only [hex8, List.cons.injEq, and_true] at h
  obtain ⟨h7, h6, h5, h4, h3, h2, h1, h0⟩ := h
  have e7 := congrArg hexVal h7
  have e6 := congrArg hexVal h6
  have e5 := congrArg hexVal h5
  have e4 := congrArg hexVal h4
  have e3 := congrArg hexVal h3
  have e2 := congrArg hexVal h2
  have e1 := congrArg hexVal h1
  have e0 := congrArg hexVal h0
  rw [hexVal_hexDigit _ (Nat.mod_lt _ (by decide)), hexVal_hexDigit _ (Nat.mod_lt _ (by decide))]
    at e7 e6 e5 e4 e3 e2 e1 e0
  norm_num at e7 e6 e5 e4 e3 e2 e1 e0 ha hb
  omega

theorem fnv32_foldl_lt (bs : List Nat) (h0 : Nat) (hh : h0 < 2 ^ 32) :
    bs.foldl (fun h b => (Nat.xor h b * 16777619) % 2 ^ 32) h0 < 2 ^ 32 := by
  induction bs generalizing h0 with
  | nil => simpa using hh
  | cons b bs ih => exact ih _ (Nat.mod_lt _ (by decide))

theorem fnv32_lt (bs : List Nat) : fnv32 bs < 2 ^ 32 :=
  fnv32_foldl_lt bs _ (by decide)

/-- The fingerprint is exactly the pair of byte length and checksum of the digested text. -/
theorem hashSnap_eq_iff (s t : List Char) :
    hashSnap s = hashSnap t ↔
      (snapBytes s).length = (snapBytes t).length ∧
        fnv32 (snapBytes s) = fnv32 (snapBytes t) := by
  constructor
  · intro h
    unfold hashSnap at h
    have h1 := List.append_inj' h (by simp [hex8])
    refine ⟨decimal_injective h1.1, ?_⟩
    have h2 : hex8 (fnv32 (snapBytes s)) = hex8 (fnv32 (snapBytes t)) := by
      simpa using h1.2
    exact hex8_injective (fnv32_lt _) (fnv32_lt _) h2
  · rintro ⟨h1, h2⟩
    unfold hashSnap
    rw [h1, h2]

/-! ## Lemmas on the heuristic planner -/

theorem Contains_append_left {a x : List Char} (b : List Char) (h : Contains a x = true) :
    Contains (a ++ b) x = true := by
  rw [Contains_iff] at h ⊢
  obtain ⟨p, q, hpq⟩ := h
  exact ⟨p, q ++ b, by simp [← hpq]⟩

theorem Contains_self_append (x b : List Char) : Contains (x ++ b) x = true :=
  Contains_iff.mpr ⟨[], b, by simp⟩

theorem Contains_map (f : Char → Char) {s x : List Char} (h : Contains s x = true) :
    Contains (s.map f) (x.map f) = true := by
  rw [Contains_iff] at h ⊢
  obtain ⟨p, q, hpq⟩ := h
  exact ⟨p.map f, q.map f, by simp [← hpq]⟩

theorem hasAny_of_mem {s sub : List Char} {subs : List (List Char)} (hm : sub ∈ subs)
    (h : Contains s sub = true) : hasAny s subs = true := by
  induction subs with
  | nil => simp at hm
  | cons a subs ih =>
    rcases List.mem_cons.mp hm with rfl | hm
    · simp [hasAny, h]
    · simp only [hasAny]
      split
      · rfl
      · exact ih hm

/-- A title with the inbox word makes the observation look like an inbox. -/
theorem alreadyInInbox_of_title (lower : Char → Char)
    (hl : ToLower lower "Входящие".toList = "входящие".toList) (obs : Observation)
    (ht : Contains obs.Title "Входящие".toList = true) : alreadyInInbox lower obs = true := by
  unfold alreadyInInbox
  have h1 : Contains (obs.Title ++ (" ".toList ++ obs.URL ++ " ".toList ++ obs.Snapshot))
      "Входящие".toList = true := Contains_append_left _ ht
  have h2 := Contains_map lower h1
  have hl2 : List.map lower "Входящие".toList = "входящие".toList := hl
  rw [hl2] at h2
  simp only [ToLower, List.append_assoc] at h2 ⊢
  rw [h2]
  rfl

/-! ## Lemmas on the control loop -/

theorem recovery_next {σ : Type} (env : Env σ) (act : llmAction)
    (res : Except (List Char) (List Char)) (unchanged : Bool) (noProgress : Nat) (mem : Memory)
    (newObs : Observation) (w4 : σ) :
    ∃ r st1, recovery env act res unchanged noProgress mem newObs w4 = .next r st1 ∧
      r.act = act ∧ r.unchanged = unchanged ∧ r.noProgress = noProgress ∧
      RecoveryShape r.forced ∧ st1.noProgress = nextNoProgress r := by
  unfold recovery
  rcases hc : Call env w4 "open_first_main_item".toList [] with ⟨e | a, w5⟩
  · exact ⟨_, _, rfl, rfl, rfl, rfl, Or.inr ⟨_, rfl⟩, by simp [nextNoProgress, toolOpenFirst]⟩
  · exact ⟨_, _, rfl, rfl, rfl, rfl, Or.inl rfl, by simp [nextNoProgress, toolOpenFirst]⟩

theorem conclude_next {σ : Type} (env : Env σ) (act : llmAction)
    (res : Except (List Char) (List Char)) (unchanged : Bool) (noProgress : Nat) (mem : Memory)
    (newObs : Observation) (w4 : σ) (r : StepLog) (st1 : LoopState σ)
    (h : conclude env act res unchanged noProgress mem newObs w4 = .next r st1) :
    r.unchanged = unchanged ∧ r.noProgress = noProgress ∧ r.act.Tool ≠ toolAnswer ∧
      (noProgress < 2 → r.forced = []) ∧ (2 ≤ noProgress → RecoveryShape r.forced) ∧
      st1.noProgress = nextNoProgress r := by
  unfold conclude at h
  by_cases hans : act.Tool = "answer_or_ask_user".toList
  · rw [if_pos hans] at h
    exact absurd h (by simp)
  · rw [if_neg hans] at h
    by_cases hnp : 2 ≤ noProgress
    · rw [if_pos hnp] at h
      obtain ⟨r2, st2, h2, ha, hu, hn, hshape, hnext⟩ :=
        recovery_next env act res unchanged noProgress mem newObs w4
      rw [h2] at h
      simp only [StepEnd.next.injEq] at h
      obtain ⟨rfl, rfl⟩ := h
      exact ⟨hu, hn, by rw [ha]; exact hans, fun h3 => by omega, fun _ => hshape, hnext⟩
    · rw [if_neg hnp] at h
      simp only [StepEnd.next.injEq] at h
      obtain ⟨rfl, rfl⟩ := h
      exact ⟨rfl, rfl, hans, fun _ => rfl, fun h3 => absurd h3 hnp, by simp [nextNoProgress]⟩

theorem conclude_finished {σ : Type} (env : Env σ) (act : llmAction)
    (res : Except (List Char) (List Char)) (unchanged : Bool) (noProgress : Nat) (mem : Memory)
    (newObs : Observation) (w4 w : σ) (r : StepLog)
    (h : conclude env act res unchanged noProgress mem newObs w4 = .finished r w) :
    r.unchanged = unchanged ∧ r.noProgress = noProgress ∧ r.act.Tool = toolAnswer ∧
      r.forced = [] := by
  unfold conclude at h
  by_cases hans : act.Tool = "answer_or_ask_user".toList
  · rw [if_pos hans] at h
    simp only [StepEnd.finished.injEq] at h
    obtain ⟨rfl, -⟩ := h
    exact ⟨rfl, rfl, hans, rfl⟩
  · rw [if_neg hans] at h
    by_cases hnp : 2 ≤ noProgress
    · rw [if_pos hnp] at h
      obtain ⟨r2, st2, h2, -⟩ := recovery_next env act res unchanged noProgress mem newObs w4
      rw [h2] at h
      exact absurd h (by simp)
    · rw [if_neg hnp] at h
      exact absurd h (by simp)

theorem evaluate_next {σ : Type} (env : Env σ) (st st1 : LoopState σ) (act : llmAction)
    (res : Except (List Char) (List Char)) (w2 : σ) (r : StepLog)
    (h : evaluate env st act res w2 = .next r st1) :
    StepOK st.noProgress r ∧ r.act.Tool ≠ toolAnswer ∧ st1.noProgress = nextNoProgress r := by
  obtain ⟨hu, hn, ha, h1, h2, h3⟩ := conclude_next env act res _ _ _ _ _ r st1 h
  refine ⟨⟨?_, fun h4 => absurd h4 ha, ?_, fun _ h5 => ?_⟩, ha, h3⟩
  · rw [hn, hu]
  · intro h4; rw [hn] at h4; exact h1 h4
  · rw [hn] at h5; exact h2 h5

theorem evaluate_finished {σ : Type} (env : Env σ) (st : LoopState σ) (act : llmAction)
    (res : Except (List Char) (List Char)) (w2 w : σ) (r : StepLog)
    (h : evaluate env st act res w2 = .finished r w) :
    StepOK st.noProgress r ∧ r.act.Tool = toolAnswer := by
  obtain ⟨hu, hn, ha, hf⟩ := conclude_finished env act res _ _ _ _ _ w r h
  refine ⟨⟨?_, fun _ => hf, fun _ => hf, fun h4 => absurd ha h4⟩, ha⟩
  rw [hn, hu]

theorem stepBody_next {σ : Type} (env : Env σ) (task : List Char) (st st1 : LoopState σ)
    (r : StepLog) (h : stepBody env task st = .next r st1) :
    StepOK st.noProgress r ∧ r.act.Tool ≠ toolAnswer ∧ st1.noProgress = nextNoProgress r := by
  unfold stepBody at h
  split at h
  · exact absurd h (by simp)
  · exact evaluate_next env st st1 _ _ _ r h

theorem stepBody_finished {σ : Type} (env : Env σ) (task : List Char) (st : LoopState σ)
    (r : StepLog) (w : σ) (h : stepBody env task st = .finished r w) :
    StepOK st.noProgress r ∧ r.act.Tool = toolAnswer := by
  unfold stepBody at h
  split at h
  · exact absurd h (by simp)
  · exact evaluate_finished env st _ _ _ w r h

theorem loop_chain {σ : Type} (env : Env σ) (task : List Char) (n : Nat) (st : LoopState σ) :
    Chain st.noProgress (loop env task n st).2 := by
  induction n generalizing st with
  | zero => simp [loop, Chain]
  | succ n ih =>
    unfold loop
    cases h : stepBody env task st with
    | planFailed e w => simp [Chain]
    | finished r w => exact ⟨(stepBody_finished env task st r w h).1, trivial⟩
    | next r st1 =>
      obtain ⟨hok, -, hnp⟩ := stepBody_next env task st st1 r h
      refine ⟨hok, ?_⟩
      rw [← hnp]
      exact ih st1

/-- How a run of the loop can end: with `return nil` at the first and last step that
planned `answer_or_ask_user`; or with no such step, either after all `n`
iterations or earlier at a planning error. -/
theorem loop_cases {σ : Type} (env : Env σ) (task : List Char) (n : Nat) (st : LoopState σ) :
    (∃ pre r, (loop env task n st).2 = pre ++ [r] ∧ r.act.Tool = toolAnswer ∧
        (∀ x ∈ pre, x.act.Tool ≠ toolAnswer) ∧ (loop env task n st).1 = .success) ∨
      ((∀ x ∈ (loop env task n st).2, x.act.Tool ≠ toolAnswer) ∧
        (((loop env task n st).1 = .stepLimit ∧ (loop env task n st).2.length = n) ∨
          ∃ e, (loop env task n st).1 = .planError e)) := by
  induction n generalizing st with
  | zero => right; simp [loop]
  | succ n ih =>
    unfold loop
    cases h : stepBody env task st with
    | planFailed e w => right; simp
    | finished r w =>
      left
      exact ⟨[], r, rfl, (stepBody_finished env task st r w h).2, by simp, rfl⟩
    | next r st1 =>
      obtain ⟨-, hans, -⟩ := stepBody_next env task st st1 r h
      rcases ih st1 with ⟨pre, r2, h1, h2, h3, h4⟩ | ⟨h1, h2⟩
      · left
        refine ⟨r :: pre, r2, by simp [h1], h2, ?_, h4⟩
        intro x hx
        rcases List.mem_cons.mp hx with rfl | hx
        · exact hans
        · exact h3 x hx
      · right
        refine ⟨?_, ?_⟩
        · intro x hx
          rcases List.mem_cons.mp hx with rfl | hx
          · exact hans
          · exact h1 x hx
        · rcases h2 with ⟨h5, h6⟩ | ⟨e, h5⟩
          · left; exact ⟨h5, by simp [h6]⟩
          · right; exact ⟨e, h5⟩

theorem Chain_split {np : Nat} {pre post : List StepLog} {r : StepLog}
    (h : Chain np (pre ++ r :: post)) :
    ∃ np1, StepOK np1 r ∧ Chain (nextNoProgress r) post := by
  induction pre generalizing np with
  | nil => exact ⟨np, h.1, h.2⟩
  | cons a pre ih => exact ih h.2

/-- After a failed forced recovery the log of the step has the scroll too, and the
counter is carried on. -/
theorem StepOK_failed_open {np : Nat} {r : StepLog} (h : StepOK np r)
    (hf : (toolOpenFirst, false) ∈ r.forced) :
    (∃ b, r.forced = [(toolOpenFirst, false), (toolScroll, b)]) ∧
      2 ≤ nextNoProgress r := by
  obtain ⟨-, h2, h3, h4⟩ := h
  by_cases ha : r.act.Tool = toolAnswer
  · rw [h2 ha] at hf; simp at hf
  · by_cases hlt : r.noProgress < 2
    · rw [h3 hlt] at hf; simp at hf
    · rcases h4 ha (by omega) with h5 | ⟨b, h5⟩
      · rw [h5] at hf; simp at hf
      · refine ⟨⟨b, h5⟩, ?_⟩
        rw [nextNoProgress, h5]
        simp
        omega

theorem conclude_ne_planFailed {σ : Type} (env : Env σ) (act : llmAction)
    (res : Except (List Char) (List Char)) (unchanged : Bool) (noProgress : Nat) (mem : Memory)
    (newObs : Observation) (w4 w : σ) (e : List Char) :
    conclude env act res unchanged noProgress mem newObs w4 ≠ .planFailed e w := by
  unfold conclude
  by_cases hans : act.Tool = "answer_or_ask_user".toList
  · rw [if_pos hans]; simp
  · rw [if_neg hans]
    by_cases hnp : 2 ≤ noProgress
    · rw [if_pos hnp]
      obtain ⟨r, st1, h, -⟩ := recovery_next env act res unchanged noProgress mem newObs w4
      rw [h]; simp
    · rw [if_neg hnp]; simp

/-- The loop body ends in a planning error only when the planner failed. -/
theorem stepBody_planFailed {σ : Type} (env : Env σ) (task : List Char) (st : LoopState σ)
    (e : List Char) (w : σ) (h : stepBody env task st = .planFailed e w) :
    planStep env st.world task st.obs st.mem = (.error e, w) := by
  unfold stepBody at h
  split at h
  · rename_i e1 w1 hp
    simp only [StepEnd.planFailed.injEq] at h
    rw [hp, h.1, h.2]
  · exact absurd h (conclude_ne_planFailed env _ _ _ _ _ _ _ w e)

theorem collectLoop_nodup (U : Unicode) (limit : Int) (es : List Element)
    (out : List Candidate) (seen : List (List Char))
    (hnd : (out.map (·.Selector)).Nodup) (hseen : ∀ c ∈ out, c.Selector ∈ seen) :
    ((collectLoop U limit es out seen).map (·.Selector)).Nodup := by
  induction es generalizing out seen with
  | nil => exact hnd
  | cons e es ih =>
    unfold collectLoop
    cases hp : processElement U e with
    | none => exact ih out seen hnd hseen
    | some c =>
      simp only
      by_cases hin : c.Selector ∈ seen
      · rw [if_pos hin]
        exact ih out seen hnd hseen
      · rw [if_neg hin]
        have hnd2 : ((out ++ [c]).map (·.Selector)).Nodup := by
          rw [List.map_append, List.nodup_append]
          refine ⟨hnd, by simp, ?_⟩
          intro s hs1 hs2
          simp only [List.map_cons, List.map_nil, List.mem_singleton] at hs2
          obtain ⟨c2, hc2, rfl⟩ := List.mem_map.mp hs1
          exact hin (hs2 ▸ hseen c2 hc2)
        split
        · exact hnd2
        · refine ih (out ++ [c]) (c.Selector :: seen) hnd2 ?_
          intro c2 hc2
          rcases List.mem_append.mp hc2 with h | h
          · exact List.mem_cons_of_mem _ (hseen c2 h)
          · rw [List.mem_singleton.mp h]
            exact List.mem_cons_self _ _

theorem collectLoop_length (U : Unicode) (limit : Int) (hl : 0 < limit) (es : List Element)
    (out : List Candidate) (seen : List (List Char)) (hout : (out.length : Int) < limit) :
    ((collectLoop U limit es out seen).length : Int) ≤ limit := by
  induction es generalizing out seen with
  | nil => exact Int.le_of_lt hout
  | cons e es ih =>
    unfold collectLoop
    cases hp : processElement U e with
    | none => exact ih out seen hout
    | some c =>
      simp only
      by_cases hin : c.Selector ∈ seen
      · rw [if_pos hin]
        exact ih out seen hout
      · rw [if_neg hin]
        by_cases hfull : 0 < limit ∧ limit ≤ ((out ++ [c]).length : Int)
        · rw [if_pos hfull]
          simp only [List.length_append, List.length_singleton, Nat.cast_add, Nat.cast_one]
          omega
        · rw [if_neg hfull]
          refine ih (out ++ [c]) (c.Selector :: seen) ?_
          have := not_and.mp hfull hl
          omega

theorem take_IndexByte (s : List Char) (c : Char) :
    (match IndexByte s c with
      | some i => s.take i
      | none => s) = s.takeWhile fun a => a ≠ c := by
  induction s with
  | nil => rfl
  | cons a s ih =>
    by_cases h : a = c
    · simp [IndexByte, h, List.takeWhile]
    · simp only [IndexByte, h, if_false, List.takeWhile, ne_eq, not_false_eq_true, decide_True]
      cases hi : IndexByte s c with
      | none => rw [hi] at ih; simpa using ih
      | some i => rw [hi] at ih; simpa using ih

/-! ## Selector normaliser (C1, C10) -/

/-- C1, counterexample: `normalizeSelector` is not idempotent.  The text `sel=\"x\"`
has no `sel="…"` fragment until its quotes are unescaped, so one pass yields
`sel="x"` and a second pass yields `x`.  Likewise `[a i i]` loses one ` i` per
pass, and `sel="#42 "` becomes `#42` in one pass and `[id="42"]` in the next. -/
theorem normalizeSelector_twice_differs :
    (normalizeSelector "sel=\\\"x\\\"".toList = "sel=\"x\"".toList ∧
      normalizeSelector (normalizeSelector "sel=\\\"x\\\"".toList) = "x".toList ∧
      normalizeSelector (normalizeSelector "sel=\\\"x\\\"".toList) ≠
        normalizeSelector "sel=\\\"x\\\"".toList) ∧
    (normalizeSelector "[a i i]".toList = "[a i]".toList ∧
      normalizeSelector (normalizeSelector "[a i i]".toList) = "[a]".toList) ∧
    (normalizeSelector "sel=\"#42 \"".toList = "#42".toList ∧
      normalizeSelector (normalizeSelector "sel=\"#42 \"".toList) = "[id=\"42\"]".toList) := by
  decide

/-- C1, amended: applying `normalizeSelector` twice gives the same as applying it
once whenever the first result offers the passes nothing to repair (no `sel="…"`
fragment, no `\"`, no case modifier ` i]` to strip, not `#` with digits).  This
is so when the trimmed input has `sel="…"` fragments and the content `c` of the
last one has no `i]` and is not `#` with digits inside white space: the result is
then `c` trimmed, or `[id="d"]` for `c = #d`.  It is also so when the trimmed
input has no fragment and the input has no `\"` and no `i]`: the result is then
the trimmed input, or `[id="d"]` for `#d`. -/
theorem normalizeSelector_idempotent_of_settled (s : List Char) :
    (settled (normalizeSelector s) = true →
      normalizeSelector (normalizeSelector s) = normalizeSelector s) ∧
    (∀ c, (findScan matchSelQuoted 0 (TrimSpace s)).getLast? = some c →
      Contains c "i]".toList = false → reNumID (TrimSpace c) = reNumID c →
      normalizeSelector s =
          (if reNumID c then "[id=\"".toList ++ TrimPrefix c "#".toList ++ "\"]".toList
            else TrimSpace c) ∧
        normalizeSelector (normalizeSelector s) = normalizeSelector s) ∧
    (findScan matchSelQuoted 0 (TrimSpace s) = [] →
      Contains s "\\\"".toList = false → Contains s "i]".toList = false →
      normalizeSelector s =
          (if reNumID (TrimSpace s) then
            "[id=\"".toList ++ TrimPrefix (TrimSpace s) "#".toList ++ "\"]".toList
            else TrimSpace s) ∧
        normalizeSelector (normalizeSelector s) = normalizeSelector s) := by
  refine ⟨fun hs => normalizeSelector_fixed hs (TrimSpace_normalizeSelector s), ?_, ?_⟩
  · intro c hc hi hnum
    have hne : TrimSpace s ≠ [] := by
      intro h0
      rw [h0] at hc
      simp [findScan] at hc
    have hquote : '"' ∉ c :=
      findScan_capture 0 (TrimSpace s) c (List.mem_of_mem_getLast? hc)
    have hq : Contains c "\\\"".toList = false :=
      Contains_false_of_missing (by simp) hquote
    have hfrag : findScan matchSelQuoted 0 (TrimSpace c) = [] :=
      findScan_nil_of_no_quote fun h => hquote ((TrimSpace_isInfix c).subset h)
    obtain ⟨h1, h2⟩ := normalizeSelector_after_passes hq hi hfrag hnum
    have hval : normalizeSelector s =
        (if reNumID c then "[id=\"".toList ++ TrimPrefix c "#".toList ++ "\"]".toList
          else TrimSpace c) := by
      rw [← h1]
      unfold normalizeSelector
      simp only [hc]
      rw [if_neg hne]
    exact ⟨hval, by rw [hval]; exact h2⟩
  · intro hfrag hq hi
    have hinf := TrimSpace_isInfix s
    have hq2 := Contains_false_of_isInfix hinf hq
    have hi2 := Contains_false_of_isInfix hinf hi
    obtain ⟨h1, h2⟩ := normalizeSelector_after_passes hq2 hi2
      (by rw [TrimSpace_idem]; exact hfrag) (by rw [TrimSpace_idem])
    rw [TrimSpace_idem] at h1 h2
    have hval : normalizeSelector s =
        (if reNumID (TrimSpace s) then
          "[id=\"".toList ++ TrimPrefix (TrimSpace s) "#".toList ++ "\"]".toList
          else TrimSpace s) := by
      by_cases h0 : TrimSpace s = []
      · unfold normalizeSelector
        simp [h0, reNumID]
      · rw [← h1]
        unfold normalizeSelector
        simp only [hfrag, List.getLast?_nil]
        rw [if_neg h0]
    exact ⟨hval, by rw [hval]; exact h2⟩

/-- Witness of `normalizeSelector_idempotent_of_settled`: `[href="x" i]`, whose result
`[href="x"]` has nothing to repair; two texts with fragments, of which the last
one counts; and the fallback selector of the extractor, which contains `sel`. -/
theorem normalizeSelector_idempotent_of_settled_witness :
    (normalizeSelector "[href=\"x\" i]".toList = "[href=\"x\"]".toList ∧
      normalizeSelector (normalizeSelector "[href=\"x\" i]".toList) =
        normalizeSelector "[href=\"x\" i]".toList) ∧
    (normalizeSelector "#16 sel=\"#inbox\"".toList = "#inbox".toList ∧
      normalizeSelector (normalizeSelector "#16 sel=\"#inbox\"".toList) =
        normalizeSelector "#16 sel=\"#inbox\"".toList) ∧
    (normalizeSelector "sel=\"[a i i]\" sel=\" b\"".toList = "b".toList ∧
      normalizeSelector (normalizeSelector "sel=\"[a i i]\" sel=\" b\"".toList) =
        normalizeSelector "sel=\"[a i i]\" sel=\" b\"".toList) ∧
    (normalizeSelector "input,button,a,textarea,select".toList =
        "input,button,a,textarea,select".toList ∧
      normalizeSelector (normalizeSelector "input,button,a,textarea,select".toList) =
        normalizeSelector "input,button,a,textarea,select".toList) :=
  ⟨⟨by decide,
      (normalizeSelector_idempotent_of_settled "[href=\"x\" i]".toList).1 (by decide)⟩,
    ⟨by decide,
      ((normalizeSelector_idempotent_of_settled "#16 sel=\"#inbox\"".toList).2.1
        "#inbox".toList (by decide) (by decide) (by decide)).2⟩,
    ⟨by decide,
      ((normalizeSelector_idempotent_of_settled "sel=\"[a i i]\" sel=\" b\"".toList).2.1
        " b".toList (by decide) (by decide) (by decide)).2⟩,
    ⟨by decide,
      ((normalizeSelector_idempotent_of_settled "input,button,a,textarea,select".toList).2.2
        (by decide) (by decide) (by decide)).2⟩⟩

/-- C10: for every non-empty text `d` of decimal digits, `normalizeSelector` turns
`#d` into `[id="d"]`; and it leaves `#abc` as it is. -/
theorem normalizeSelector_numeric_id (d : List Char) (hne : d ≠ [])
    (hd : ∀ c ∈ d, isReDigit c = true) :
    normalizeSelector ("#".toList ++ d) = "[id=\"".toList ++ d ++ "\"]".toList ∧
    normalizeSelector "#abc".toList = "#abc".toList :=
  ⟨normalizeSelector_numID d hne (List.all_eq_true.mpr hd), by decide⟩

/-- Witness of `normalizeSelector_numeric_id` at `#42`. -/
theorem normalizeSelector_numeric_id_witness :
    "42".toList ≠ [] ∧ (∀ c ∈ "42".toList, isReDigit c = true) ∧
    normalizeSelector "#42".toList = "[id=\"42\"]".toList :=
  ⟨by decide, by decide, (normalizeSelector_numeric_id "42".toList (by decide) (by decide)).1⟩

/-! ## Change fingerprint (C2) -/

/-- C2, counterexample: `declinate` and `macallums` differ within their first 512
characters and have the same fingerprint `9|e20e47d2`. -/
theorem hashSnap_collision :
    "declinate".toList.take 512 ≠ "macallums".toList.take 512 ∧
    hashSnap "declinate".toList = "9|e20e47d2".toList ∧
    hashSnap "macallums".toList = "9|e20e47d2".toList := by
  decide

/-- C2, amended: two snapshots have different fingerprints exactly when their
digested texts (trimmed, cut to the first 512 bytes) differ in byte length or in
FNV-1a checksum. -/
theorem hashSnap_ne_iff (s t : List Char) :
    hashSnap s ≠ hashSnap t ↔
      (snapBytes s).length ≠ (snapBytes t).length ∨
        fnv32 (snapBytes s) ≠ fnv32 (snapBytes t) := by
  rw [Ne, hashSnap_eq_iff]
  tauto

/-! ## Heuristic planner (C3, C4, C5) -/

/-- C3, counterexample: the tasks contain `mail` and none of the URLs does.  On a
page titled `Inbox` the planner answers `open_first_main_item`; on a page whose
URL has `Mail` in upper case and which offers an `Inbox` candidate it answers
`click`; for a task that also mentions `login`, on a page with an e-mail field,
it answers `type`. -/
theorem heuristic_mail_not_goto :
    Contains "open my mail".toList "mail".toList = true ∧
    Contains "https://example.com/".toList "mail".toList = false ∧
    (simpleHeuristicDecision unicodeToLower "open my mail".toList
      ⟨"Inbox".toList, "https://example.com/".toList, [],
        [⟨"#folders".toList, [], [], "Inbox".toList, [], [], [], false, []⟩]⟩
      Memory.New).Tool = "open_first_main_item".toList ∧
    Contains "https://example.com/Mail".toList "mail".toList = false ∧
    (simpleHeuristicDecision unicodeToLower "open my mail".toList
      ⟨"Example".toList, "https://example.com/Mail".toList, [],
        [⟨"#folders".toList, [], [], "Inbox".toList, [], [], [], false, []⟩]⟩
      Memory.New).Tool = "click".toList ∧
    Contains "login and open my mail".toList "mail".toList = true ∧
    (simpleHeuristicDecision unicodeToLower "login and open my mail".toList
      ⟨"Example".toList, "https://example.com/".toList, [],
        [⟨"#user".toList, [], [], [], "tag=input; role=textbox; placeholder=Email".toList,
          [], [], false, []⟩]⟩
      Memory.New).Tool = "type".toList := by
  decide

/-- C3, amended: for a task containing `mail` and an observation whose lower-cased
URL does not contain `mail`, the planner answers `open_first_main_item` when the
observation already looks like an inbox, otherwise `type` when the login rule
finds a field, otherwise `goto_url`; it never answers `click`. -/
theorem heuristic_mail_rule (lower : Char → Char)
    (hl : ToLower lower "mail".toList = "mail".toList)
    (task : List Char) (obs : Observation) (mem : Memory)
    (htask : Contains task "mail".toList = true)
    (hurl : Contains (ToLower lower obs.URL) "mail".toList = false) :
    (simpleHeuristicDecision lower task obs mem).Tool =
      (if alreadyInInbox lower obs then "open_first_main_item".toList
       else if loginWanted lower (ToLower lower task) obs && loginField lower obs ≠ [] then
         "type".toList
       else "goto_url".toList) ∧
    (simpleHeuristicDecision lower task obs mem).Tool ≠ "click".toList := by
  have h1 : Contains (ToLower lower task) "mail".toList = true := by
    have := Contains_map lower htask
    rwa [show List.map lower "mail".toList = "mail".toList from hl] at this
  have h2 : hasAny (ToLower lower task) ["почт".toList, "mail".toList, "email".toList,
      "входящие".toList, "яндекс".toList] = true :=
    hasAny_of_mem (by simp) h1
  unfold simpleHeuristicDecision
  simp only [h2, hurl, Bool.not_false, Bool.and_self]
  split
  · exact ⟨rfl, by decide⟩
  · split
    · exact ⟨rfl, by show "type".toList ≠ "click".toList; decide⟩
    · rw [if_pos trivial]
      exact ⟨rfl, by show "goto_url".toList ≠ "click".toList; decide⟩

/-- Witness of `heuristic_mail_rule`: a blank page with an `Inbox` candidate. -/
theorem heuristic_mail_rule_witness :
    ToLower unicodeToLower "mail".toList = "mail".toList ∧
    Contains "open my mail".toList "mail".toList = true ∧
    Contains (ToLower unicodeToLower "https://example.com/".toList) "mail".toList = false ∧
    (simpleHeuristicDecision unicodeToLower "open my mail".toList
      ⟨"Example".toList, "https://example.com/".toList, [],
        [⟨"#folders".toList, [], [], "Inbox".toList, [], [], [], false, []⟩]⟩
      Memory.New).Tool = "goto_url".toList :=
  ⟨by decide, by decide, by decide, (heuristic_mail_rule unicodeToLower (by decide) "open my mail".toList
    ⟨"Example".toList, "https://example.com/".toList, [],
      [⟨"#folders".toList, [], [], "Inbox".toList, [], [], [], false, []⟩]⟩
    Memory.New (by decide) (by decide)).1⟩

/-- The task of the end-to-end scenario. -/
theorem scenarioTask_rules :
    hasAny "открой входящие и прочитай письмо".toList
      ["войти".toList, "логин".toList, "login".toList, "sign in".toList] = false ∧
    hasAny "открой входящие и прочитай письмо".toList
      ["почт".toList, "mail".toList, "email".toList, "входящие".toList, "яндекс".toList] = true := by
  decide

/-- C4, counterexample: three observations without inbox marker whose only candidate
has the text `Входящие`.  On a blank page (`about:blank`) the first planning call
for the scenario task answers `goto_url`, since the task mentions `входящие` and
the URL has no `mail`.  On a mail page titled `Логин` whose candidate description
mentions `login` it answers `type`.  On a mail page whose candidate has an empty
selector it answers `answer_or_ask_user`. -/
theorem heuristic_scenario_goto :
    (alreadyInInbox unicodeToLower
        ⟨[], "about:blank".toList, [],
          [⟨"#inbox-link".toList, [], [], "Входящие".toList, [], [], [], false, []⟩]⟩ = false ∧
      simpleHeuristicDecision unicodeToLower "открой входящие и прочитай письмо".toList
        ⟨[], "about:blank".toList, [],
          [⟨"#inbox-link".toList, [], [], "Входящие".toList, [], [], [], false, []⟩]⟩
        Memory.New =
        ⟨"goto_url".toList, [("url".toList, .str "https://mail.yandex.ru/".toList)],
          "Переход к почтовому сервису".toList⟩) ∧
    (alreadyInInbox unicodeToLower
        ⟨"Логин".toList, "https://mail.yandex.ru/".toList, [],
          [⟨"#inbox-link".toList, [], [], "Входящие".toList,
            "tag=a; role=link; href=/login/folders".toList, [], [], false, []⟩]⟩ = false ∧
      (simpleHeuristicDecision unicodeToLower "открой входящие и прочитай письмо".toList
        ⟨"Логин".toList, "https://mail.yandex.ru/".toList, [],
          [⟨"#inbox-link".toList, [], [], "Входящие".toList,
            "tag=a; role=link; href=/login/folders".toList, [], [], false, []⟩]⟩
        Memory.New).Tool = "type".toList) ∧
    (alreadyInInbox unicodeToLower
        ⟨[], "https://mail.yandex.ru/".toList, [],
          [⟨[], [], [], "Входящие".toList, [], [], [], false, []⟩]⟩ = false ∧
      (simpleHeuristicDecision unicodeToLower "открой входящие и прочитай письмо".toList
        ⟨[], "https://mail.yandex.ru/".toList, [],
          [⟨[], [], [], "Входящие".toList, [], [], [], false, []⟩]⟩
        Memory.New).Tool = "answer_or_ask_user".toList) := by
  decide

/-- C4, amended: for the scenario task, a fresh memory and an observation without
inbox marker whose only candidate has the text `Входящие` and a non-empty
selector, the planner answers `click` on that selector, provided the lower-cased
URL contains `mail` and the login rule does not fire (the lower-cased title has
no `логин`, or no candidate looks like a login field). -/
theorem heuristic_scenario_click (lower : Char → Char)
    (hl : ToLower lower "открой входящие и прочитай письмо".toList =
      "открой входящие и прочитай письмо".toList)
    (obs : Observation) (c : Candidate)
    (hc : obs.Candidates = [c]) (htext : c.Text = "Входящие".toList) (hsel : c.Selector ≠ [])
    (hin : alreadyInInbox lower obs = false)
    (hurl : Contains (ToLower lower obs.URL) "mail".toList = true)
    (hlogin : Contains (ToLower lower obs.Title) "логин".toList = false ∨
      loginField lower obs = []) :
    (simpleHeuristicDecision lower "открой входящие и прочитай письмо".toList obs
      Memory.New).Tool = "click".toList ∧
    (simpleHeuristicDecision lower "открой входящие и прочитай письмо".toList obs
      Memory.New).Args = [("selector".toList, .str c.Selector)] := by
  have hfind : findByText lower obs.Candidates ["Входящие".toList, "Inbox".toList] =
      c.Selector := by
    rw [hc, findByText, htext]
    have : Contains (ToLower lower ("Входящие".toList ++ " ".toList ++ c.Desc))
        (ToLower lower "Входящие".toList) = true := by
      simp only [ToLower, List.append_assoc, List.map_append]
      exact Contains_self_append _ _
    simp only [List.any_cons, this, Bool.true_or, if_true]
  have hb : (loginWanted lower "открой входящие и прочитай письмо".toList obs &&
      decide (loginField lower obs ≠ [])) = false := by
    rcases hlogin with h | h
    · simp only [loginWanted, scenarioTask_rules.1, h, Bool.or_self, Bool.false_and]
    · simp [h]
  have hlast : Contains (ToLower lower Memory.New.LastAction) "inbox".toList = false := rfl
  unfold simpleHeuristicDecision
  simp only [hl, hin, hb, scenarioTask_rules.2, hurl, hfind, hlast]
  simp [hsel]

/-- Witness of `heuristic_scenario_click`: the mail page before the inbox is shown. -/
theorem heuristic_scenario_click_witness :
    simpleHeuristicDecision unicodeToLower "открой входящие и прочитай письмо".toList
      ⟨"Yandex".toList, "https://mail.yandex.ru/".toList, [],
        [⟨"#inbox-link".toList, [], [], "Входящие".toList, [], [], [], false, []⟩]⟩
      Memory.New =
      ⟨"click".toList, [("selector".toList, .str "#inbox-link".toList)],
        "Открываю Inbox".toList⟩ ∧
    (simpleHeuristicDecision unicodeToLower "открой входящие и прочитай письмо".toList
      ⟨"Yandex".toList, "https://mail.yandex.ru/".toList, [],
        [⟨"#inbox-link".toList, [], [], "Входящие".toList, [], [], [], false, []⟩]⟩
      Memory.New).Tool = "click".toList :=
  ⟨by decide,
    (heuristic_scenario_click unicodeToLower (by decide)
      ⟨"Yandex".toList, "https://mail.yandex.ru/".toList, [],
        [⟨"#inbox-link".toList, [], [], "Входящие".toList, [], [], [], false, []⟩]⟩
      ⟨"#inbox-link".toList, [], [], "Входящие".toList, [], [], [], false, []⟩
      rfl rfl (by decide) (by decide) (by decide) (Or.inl (by decide))).1⟩

/-- C5: for every task, memory and observation whose title contains `Входящие`, the
planner answers `open_first_main_item` (over every case table that lower-cases
`Входящие` to `входящие`, as Unicode does). -/
theorem heuristic_inbox_title (lower : Char → Char)
    (hl : ToLower lower "Входящие".toList = "входящие".toList)
    (task : List Char) (obs : Observation) (mem : Memory)
    (ht : Contains obs.Title "Входящие".toList = true) :
    (simpleHeuristicDecision lower task obs mem).Tool = "open_first_main_item".toList := by
  unfold simpleHeuristicDecision
  simp only [alreadyInInbox_of_title lower hl obs ht, if_true]

/-- Witness of `heuristic_inbox_title`: a task that does not mention mail at all. -/
theorem heuristic_inbox_title_witness :
    ToLower unicodeToLower "Входящие".toList = "входящие".toList ∧
    Contains "Входящие — Яндекс Почта".toList "Входящие".toList = true ∧
    (simpleHeuristicDecision unicodeToLower "buy milk".toList
      ⟨"Входящие — Яндекс Почта".toList, "https://example.org/".toList, [], []⟩
      Memory.New).Tool = "open_first_main_item".toList :=
  ⟨by decide, by decide,
    heuristic_inbox_title unicodeToLower (by decide) "buy milk".toList
      ⟨"Входящие — Яндекс Почта".toList, "https://example.org/".toList, [], []⟩
      Memory.New (by decide)⟩
/-! ## Control loop (C6, C7, C8, C9) -/

/-- C6, counterexample: a run on a page whose text never changes, planning `scroll`
three times and then `answer_or_ask_user`.  Every step ends with an unchanged
fingerprint.  Step 2 forces `open_first_main_item`, which succeeds and resets
the counter, so step 3 forces nothing; step 4 plans `answer_or_ask_user` and
returns before the recovery branch. -/
theorem run_unchanged_without_recovery :
    (Run (scriptEnv 0 4) (0, 0) "read the news".toList).2.map
        (fun r => (r.act.Tool, r.unchanged, r.forced)) =
      [(toolScroll, true, []), (toolScroll, true, [(toolOpenFirst, true)]),
       (toolScroll, true, []), (toolAnswer, true, [])] := by
  decide

/-- C6, amended: when two consecutive steps of a run both end with an unchanged
fingerprint, the first of them did not end in a successful forced recovery, and
the second did not plan `answer_or_ask_user`, then the second step force-executes
`open_first_main_item` first. -/
theorem run_forced_recovery {σ : Type} (env : Env σ) (w : σ) (task : List Char)
    (pre post : List StepLog) (r1 r2 : StepLog)
    (hlog : (Run env w task).2 = pre ++ r1 :: r2 :: post)
    (h1 : r1.unchanged = true) (hrec : (toolOpenFirst, true) ∉ r1.forced)
    (h2 : r2.unchanged = true) (ha : r2.act.Tool ≠ toolAnswer) :
    ∃ ok rest, r2.forced = (toolOpenFirst, ok) :: rest := by
  have hchain := loop_chain env task maxSteps
    ⟨(env.observe w 24).2, Memory.New, (env.observe w 24).1, (env.observe w 24).1.URL,
      hashSnap (env.observe w 24).1.Snapshot, 0⟩
  have hrun : (Run env w task).2 = (loop env task maxSteps
    ⟨(env.observe w 24).2, Memory.New, (env.observe w 24).1, (env.observe w 24).1.URL,
      hashSnap (env.observe w 24).1.Snapshot, 0⟩).2 := rfl
  rw [← hrun, hlog] at hchain
  obtain ⟨np1, hok1, hrest⟩ := Chain_split hchain
  have hok2 : StepOK (nextNoProgress r1) r2 := hrest.1
  have hn1 : r1.noProgress = np1 + 1 := by rw [hok1.1, h1]; rfl
  have hnext : nextNoProgress r1 = r1.noProgress := by
    unfold nextNoProgress
    rw [if_neg]
    intro h3
    rw [h3] at hrec
    simp at hrec
  have hn2 : r2.noProgress = nextNoProgress r1 + 1 := by rw [hok2.1, h2]; rfl
  rcases hok2.2.2.2 ha (by omega) with h3 | ⟨b, h3⟩
  · exact ⟨true, [], h3⟩
  · exact ⟨false, _, h3⟩

/-- Witness of `run_forced_recovery`: steps 1 and 2 of the run of
`run_unchanged_without_recovery`. -/
theorem run_forced_recovery_witness :
    (Run (scriptEnv 0 4) (0, 0) "read the news".toList).2 =
      [scrollStep 1 [], scrollStep 2 [(toolOpenFirst, true)], scrollStep 1 [], answerStep 2] ∧
    ∃ ok rest, (scrollStep 2 [(toolOpenFirst, true)]).forced = (toolOpenFirst, ok) :: rest :=
  ⟨by decide,
    run_forced_recovery (scriptEnv 0 4) (0, 0) "read the news".toList []
      [scrollStep 1 [], answerStep 2] (scrollStep 1 []) (scrollStep 2 [(toolOpenFirst, true)])
      (by decide) (by decide) (by decide) (by decide) (by decide)⟩

/-- C7, counterexample: in a run on a page whose text never changes, the forced
`open_first_main_item` of step 2 fails, and step 2 itself forces `scroll`.  Step 3
again ends with an unchanged fingerprint; it forces `open_first_main_item`, which
now succeeds, and no `scroll`. -/
theorem run_failed_recovery_then_no_scroll :
    (Run (scriptEnv 1 4) (0, 0) "read the news".toList).2.map
        (fun r => (r.act.Tool, r.unchanged, r.forced)) =
      [(toolScroll, true, []),
       (toolScroll, true, [(toolOpenFirst, false), (toolScroll, true)]),
       (toolScroll, true, [(toolOpenFirst, true)]), (toolAnswer, true, [])] := by
  decide

/-- C7, amended: a step whose forced `open_first_main_item` failed force-executes
`scroll` itself, right after it.  The following step, when it again ends with an
unchanged fingerprint and did not plan `answer_or_ask_user`, force-executes
`open_first_main_item` again, and `scroll` only after that one failed too. -/
theorem run_failed_recovery_scrolls {σ : Type} (env : Env σ) (w : σ) (task : List Char)
    (pre post : List StepLog) (r1 : StepLog)
    (hlog : (Run env w task).2 = pre ++ r1 :: post)
    (hf : (toolOpenFirst, false) ∈ r1.forced) :
    (∃ b, r1.forced = [(toolOpenFirst, false), (toolScroll, b)]) ∧
    ∀ r2 rest, post = r2 :: rest → r2.unchanged = true → r2.act.Tool ≠ toolAnswer →
      r2.forced = [(toolOpenFirst, true)] ∨
        ∃ b, r2.forced = [(toolOpenFirst, false), (toolScroll, b)] := by
  have hchain := loop_chain env task maxSteps
    ⟨(env.observe w 24).2, Memory.New, (env.observe w 24).1, (env.observe w 24).1.URL,
      hashSnap (env.observe w 24).1.Snapshot, 0⟩
  have hrun : (Run env w task).2 = (loop env task maxSteps
    ⟨(env.observe w 24).2, Memory.New, (env.observe w 24).1, (env.observe w 24).1.URL,
      hashSnap (env.observe w 24).1.Snapshot, 0⟩).2 := rfl
  rw [← hrun, hlog] at hchain
  obtain ⟨np1, hok1, hrest⟩ := Chain_split hchain
  obtain ⟨hshape, hnext⟩ := StepOK_failed_open hok1 hf
  refine ⟨hshape, ?_⟩
  intro r2 rest hpost h2 ha
  rw [hpost] at hrest
  have hok2 : StepOK (nextNoProgress r1) r2 := hrest.1
  have hn2 : r2.noProgress = nextNoProgress r1 + 1 := by rw [hok2.1, h2]; rfl
  exact hok2.2.2.2 ha (by omega)

/-- Witness of `run_failed_recovery_scrolls`: step 2 of the run of
`run_failed_recovery_then_no_scroll`. -/
theorem run_failed_recovery_scrolls_witness :
    (Run (scriptEnv 1 4) (0, 0) "read the news".toList).2 =
      [scrollStep 1 [], scrollStep 2 [(toolOpenFirst, false), (toolScroll, true)],
       scrollStep 3 [(toolOpenFirst, true)], answerStep 1] ∧
    ∃ b, (scrollStep 2 [(toolOpenFirst, false), (toolScroll, true)]).forced =
      [(toolOpenFirst, false), (toolScroll, b)] :=
  ⟨by decide,
    (run_failed_recovery_scrolls (scriptEnv 1 4) (0, 0) "read the news".toList
      [scrollStep 1 []] [scrollStep 3 [(toolOpenFirst, true)], answerStep 1]
      (scrollStep 2 [(toolOpenFirst, false), (toolScroll, true)]) (by decide) (by decide)).1⟩

/-- C8: in every run, a step that planned `answer_or_ask_user` is the last step and
the only such step, `Run` returns `nil`, and the step force-executed nothing,
whatever its counter and whether or not the fingerprint changed. -/
theorem run_answer_terminates {σ : Type} (env : Env σ) (w : σ) (task : List Char)
    (pre post : List StepLog) (r : StepLog)
    (hlog : (Run env w task).2 = pre ++ r :: post) (ha : r.act.Tool = toolAnswer) :
    post = [] ∧ (∀ x ∈ pre, x.act.Tool ≠ toolAnswer) ∧ (Run env w task).1 = .success ∧
      (Run env w task).1.error = none ∧ r.forced = [] := by
  have hchain := loop_chain env task maxSteps
    ⟨(env.observe w 24).2, Memory.New, (env.observe w 24).1, (env.observe w 24).1.URL,
      hashSnap (env.observe w 24).1.Snapshot, 0⟩
  have hcases := loop_cases env task maxSteps
    ⟨(env.observe w 24).2, Memory.New, (env.observe w 24).1, (env.observe w 24).1.URL,
      hashSnap (env.observe w 24).1.Snapshot, 0⟩
  have hrun : Run env w task = loop env task maxSteps
    ⟨(env.observe w 24).2, Memory.New, (env.observe w 24).1, (env.observe w 24).1.URL,
      hashSnap (env.observe w 24).1.Snapshot, 0⟩ := rfl
  rw [← hrun] at hchain hcases
  rw [hlog] at hchain hcases
  obtain ⟨np, hok, -⟩ := Chain_split hchain
  rcases hcases with ⟨pre1, r1, h1, h2, h3, h4⟩ | ⟨h1, -⟩
  · have hpost : post = [] := by
      by_contra hne
      have hmem : r ∈ pre1 := by
        have h5 := congrArg List.dropLast h1
        rw [List.dropLast_concat] at h5
        rw [← h5, List.dropLast_append_of_ne_nil _ (by simp),
          List.dropLast_cons_of_ne_nil hne]
        simp
      exact h3 r hmem ha
    subst hpost
    have h5 := List.append_inj' h1 rfl
    refine ⟨rfl, ?_, h4, by rw [h4]; rfl, hok.2.1 ha⟩
    rw [h5.1]
    exact h3
  · exact absurd ha (h1 r (by simp))

/-- Witness of `run_answer_terminates`: step 4 of the run of
`run_unchanged_without_recovery`, reached with the counter at two. -/
theorem run_answer_terminates_witness :
    (Run (scriptEnv 0 4) (0, 0) "read the news".toList).2 =
      [scrollStep 1 [], scrollStep 2 [(toolOpenFirst, true)], scrollStep 1 []] ++
        answerStep 2 :: [] ∧
    (Run (scriptEnv 0 4) (0, 0) "read the news".toList).1.error = none :=
  ⟨by decide,
    (run_answer_terminates (scriptEnv 0 4) (0, 0) "read the news".toList
      [scrollStep 1 [], scrollStep 2 [(toolOpenFirst, true)], scrollStep 1 []] []
      (answerStep 2) (by decide) (by decide)).2.2.2.1⟩

/-- C11: the candidates returned by one call of `CollectCandidates` have pairwise
distinct selectors, for every answer of the page and every limit; and for a limit
that is not negative the call returns what its loop collected. -/
theorem CollectCandidates_selectors_nodup (U : Unicode)
    (query : Except (List Char) (List Element)) (limit : Int) :
    ((CollectCandidates U query limit).candidates.map (·.Selector)).Nodup ∧
    ∀ elems, query = .ok elems → 0 ≤ limit →
      CollectCandidates U query limit = .ok (collectLoop U limit elems [] []) := by
  constructor
  · unfold CollectCandidates
    cases query with
    | error e => simp [Collected.candidates]
    | ok elems =>
      simp only
      split
      · simp [Collected.candidates]
      · exact collectLoop_nodup U limit elems [] [] (by simp) (by simp)
  · intro elems hq hl
    subst hq
    unfold CollectCandidates
    simp only
    rw [if_neg (by omega)]

/-- Witness of `CollectCandidates_selectors_nodup`: four elements, two of which share
an `id` and two an `href`, give two candidates. -/
theorem CollectCandidates_selectors_nodup_witness :
    (CollectCandidates basicUnicode
      (.ok [linkElement "menu".toList [], linkElement [] "/inbox".toList,
        linkElement "menu".toList "/inbox".toList, linkElement [] "/inbox#top".toList])
      24).candidates.map (·.Selector) =
      ["[id=\"menu\"]".toList, "a[href*=\"/inbox\"]".toList] ∧
    ((CollectCandidates basicUnicode
      (.ok [linkElement "menu".toList [], linkElement [] "/inbox".toList,
        linkElement "menu".toList "/inbox".toList, linkElement [] "/inbox#top".toList])
      24).candidates.map (·.Selector)).Nodup :=
  ⟨by decide,
    (CollectCandidates_selectors_nodup basicUnicode
      (.ok [linkElement "menu".toList [], linkElement [] "/inbox".toList,
        linkElement "menu".toList "/inbox".toList, linkElement [] "/inbox#top".toList])
      24).1⟩

/-- C12, counterexample: with the limit 0 the loop never stops early, and two elements
give two candidates; with the limit -1 the call panics when it allocates `out`. -/
theorem CollectCandidates_limit_zero :
    (CollectCandidates basicUnicode
      (.ok [linkElement "menu".toList [], linkElement [] "/inbox".toList])
      0).candidates.map (·.Selector) =
      ["[id=\"menu\"]".toList, "a[href*=\"/inbox\"]".toList] ∧
    ¬ (((CollectCandidates basicUnicode
      (.ok [linkElement "menu".toList [], linkElement [] "/inbox".toList])
      0).candidates.length : Int) ≤ 0) ∧
    CollectCandidates basicUnicode
      (.ok [linkElement "menu".toList [], linkElement [] "/inbox".toList]) (-1) = .panic := by
  decide

/-- C12, amended: for every answer of the page and every limit greater than zero, the
call of `CollectCandidates` does not panic and returns at most `limit` candidates. -/
theorem CollectCandidates_length_le (U : Unicode)
    (query : Except (List Char) (List Element)) (limit : Int) (hl : 0 < limit) :
    CollectCandidates U query limit ≠ .panic ∧
    ((CollectCandidates U query limit).candidates.length : Int) ≤ limit := by
  unfold CollectCandidates
  cases query with
  | error e => exact ⟨by simp, by simpa [Collected.candidates] using Int.le_of_lt hl⟩
  | ok elems =>
    simp only
    rw [if_neg (by omega)]
    exact ⟨by simp, collectLoop_length U limit hl elems [] [] (by simpa using hl)⟩

/-- Witness of `CollectCandidates_length_le`: three elements under the limit 2. -/
theorem CollectCandidates_length_le_witness :
    (CollectCandidates basicUnicode
      (.ok [linkElement "menu".toList [], linkElement [] "/inbox".toList,
        linkElement "help".toList []])
      2).candidates.map (·.Selector) =
      ["[id=\"menu\"]".toList, "a[href*=\"/inbox\"]".toList] ∧
    ((CollectCandidates basicUnicode
      (.ok [linkElement "menu".toList [], linkElement [] "/inbox".toList,
        linkElement "help".toList []])
      2).candidates.length : Int) ≤ 2 :=
  ⟨by decide,
    (CollectCandidates_length_le basicUnicode
      (.ok [linkElement "menu".toList [], linkElement [] "/inbox".toList,
        linkElement "help".toList []])
      2 (by decide)).2⟩

/-- C13, counterexample: for the link `/mail?uid=1#inbox` the synthesized selector
keeps the query string, `a[href*="/mail?uid=1"]`, where the specification's
selector is `a[href*="/mail"]`; and this is the selector of the candidate that
`CollectCandidates` returns. -/
theorem href_selector_keeps_query :
    synthSelector basicUnicode (linkElement [] "/mail?uid=1#inbox".toList) =
      "a[href*=\"/mail?uid=1\"]".toList ∧
    specHrefSelector "/mail?uid=1#inbox".toList = "a[href*=\"/mail\"]".toList ∧
    synthSelector basicUnicode (linkElement [] "/mail?uid=1#inbox".toList) ≠
      specHrefSelector "/mail?uid=1#inbox".toList ∧
    (CollectCandidates basicUnicode (.ok [linkElement [] "/mail?uid=1#inbox".toList])
      24).candidates.map (·.Selector) = ["a[href*=\"/mail?uid=1\"]".toList] := by
  decide

/-- C13, amended: for every element without `id`, `data-qa`, `data-testid` and
`data-test` and with a non-empty `href`, the synthesized selector is `a[href*=`,
then the `%q` quotation of the `href` cut at its first `#` and cropped to 40
runes by `crop`, then `]`; the query string stays.  A candidate that the loop
builds for the element has this selector. -/
theorem href_selector (U : Unicode) (e : Element) (hid : e.id = []) (hdq : e.dq = [])
    (hdtid : e.dtid = []) (hdtest : e.dtest = []) (hhref : e.href ≠ []) :
    synthSelector U e =
      "a[href*=".toList ++ Quote U (crop (e.href.takeWhile fun a => a ≠ '#') 40) ++
        "]".toList ∧
    ∀ c, processElement U e = some c →
      c.Selector =
        "a[href*=".toList ++ Quote U (crop (e.href.takeWhile fun a => a ≠ '#') 40) ++
          "]".toList := by
  have hsel : synthSelector U e =
      "a[href*=".toList ++ Quote U (crop (e.href.takeWhile fun a => a ≠ '#') 40) ++
        "]".toList := by
    unfold synthSelector
    simp only [hid, hdq, hdtid, hdtest, ne_eq, not_true_eq_false, if_false, hhref,
      not_false_eq_true, if_true]
    rw [take_IndexByte]
    apply TrimSpace_eq_self
    · intro c hc; simp at hc; subst hc; decide
    · intro c hc
      rw [show "]".toList = [']'] from rfl, List.getLast?_concat] at hc
      simp at hc; subst hc; decide
  refine ⟨hsel, ?_⟩
  intro c hc
  unfold processElement at hc
  split at hc
  · exact absurd hc (by simp)
  · split at hc
    · exact absurd hc (by simp)
    · split at hc
      · exact absurd hc (by simp)
      · split at hc
        · exact absurd hc (by simp)
        · simp only [Option.some.injEq] at hc
          rw [← hc]
          exact hsel

/-- Witness of `href_selector`: a link with query string and fragment. -/
theorem href_selector_witness :
    synthSelector basicUnicode (linkElement [] "/mail?uid=1#inbox".toList) =
      "a[href*=".toList ++
        Quote basicUnicode
          (crop ("/mail?uid=1#inbox".toList.takeWhile fun a => a ≠ '#') 40) ++ "]".toList ∧
    Quote basicUnicode (crop ("/mail?uid=1#inbox".toList.takeWhile fun a => a ≠ '#') 40) =
      "\"/mail?uid=1\"".toList :=
  ⟨(href_selector basicUnicode (linkElement [] "/mail?uid=1#inbox".toList) rfl rfl rfl rfl
      (by decide)).1, by decide⟩

end AIAgent
